import Mathlib

/-!
GNSS-SDR: carrier loop filter and FPGA acquisition adapter.

A shallow embedding of

* `src/algorithms/tracking/libs/tracking_FLL_PLL_filter.cc`
  (hybrid FLL/PLL carrier loop filter),
* `src/algorithms/acquisition/adapters/gps_l5i_pcps_acquisition_fpga.cc`
  (search geometry, reference code table and code-word packing of the GPS L5I
  FPGA adapter), and
* `src/algorithms/tracking/libs/cpu_multicorrelator_16sc.cc`
  (correlator bank: correlation call and tap buffer allocation).

Floating-point members and arguments of the C++ code are read as elements of
an ordered field `K` (the rationals when a value is computed, the reals for
the mathematical statement); machine integers are `Nat`/`Int` with the
wrap-around of their width written out, and a floating-point value converted
to an integer type that cannot hold it has no result (`none`).
-/

/-! ## Carrier loop filter state -/

/-- The data members of `Tracking_FLL_PLL_filter` that the three member
functions read or write. -/
@[ext]
structure Tracking_FLL_PLL_filter (K : Type) where
  d_order : Int
  d_pll_w : K
  d_pll_x : K
  d_pll_a2 : K
  d_pll_a3 : K
  d_pll_b3 : K
  d_pll_w0p : K
  d_pll_w0p2 : K
  d_pll_w0p3 : K
  d_pll_w0f : K
  d_pll_w0f2 : K

/-- Source: `Tracking_FLL_PLL_filter::set_params(fll_bw_hz, pll_bw_hz, order)`.
The order-3 branch sets all gains; the other branch sets `a2`, `w0p`, `w0p2`
and `w0f` only and leaves the remaining members as they were. -/
def Tracking_FLL_PLL_filter.set_params {K : Type} [LinearOrderedField K]
    (s : Tracking_FLL_PLL_filter K) (fll_bw_hz pll_bw_hz : K) (order : Int) :
    Tracking_FLL_PLL_filter K :=
  if order = 3 then
    let w0p := pll_bw_hz / (7845 / 10000)
    let w0p2 := w0p * w0p
    let w0f := fll_bw_hz / (53 / 100)
    { s with
      d_order := order
      d_pll_b3 := 2400 / 1000
      d_pll_a3 := 1100 / 1000
      d_pll_a2 := 1414 / 1000
      d_pll_w0p := w0p
      d_pll_w0p2 := w0p2
      d_pll_w0p3 := w0p2 * w0p
      d_pll_w0f := w0f
      d_pll_w0f2 := w0f * w0f }
  else
    let w0p := pll_bw_hz / (53 / 100)
    { s with
      d_order := order
      d_pll_a2 := 1414 / 1000
      d_pll_w0p := w0p
      d_pll_w0p2 := w0p * w0p
      d_pll_w0f := fll_bw_hz / (25 / 100) }

/-- Source: `Tracking_FLL_PLL_filter::initialize(d_acq_carrier_doppler_hz)`. -/
def Tracking_FLL_PLL_filter.initialize {K : Type} [LinearOrderedField K]
    (s : Tracking_FLL_PLL_filter K) (d_acq_carrier_doppler_hz : K) :
    Tracking_FLL_PLL_filter K :=
  if s.d_order = 3 then
    { s with d_pll_x := 2 * d_acq_carrier_doppler_hz, d_pll_w := 0 }
  else
    { s with d_pll_w := d_acq_carrier_doppler_hz, d_pll_x := 0 }

/-- Source: `Tracking_FLL_PLL_filter::get_carrier_error(FLL_discriminator,
PLL_discriminator, correlation_time_s)`. Returns `carrier_error_hz` together
with the filter after the call. In the order-3 branch the second assignment
reads the `d_pll_w` just written by the first one. -/
def Tracking_FLL_PLL_filter.get_carrier_error {K : Type} [LinearOrderedField K]
    (s : Tracking_FLL_PLL_filter K)
    (FLL_discriminator PLL_discriminator correlation_time_s : K) :
    K × Tracking_FLL_PLL_filter K :=
  if s.d_order = 3 then
    let w := s.d_pll_w + correlation_time_s *
      (s.d_pll_w0p3 * PLL_discriminator + s.d_pll_w0f2 * FLL_discriminator)
    let x := s.d_pll_x + correlation_time_s *
      (1 / 2 * w + s.d_pll_a2 * s.d_pll_w0f * FLL_discriminator
        + s.d_pll_a3 * s.d_pll_w0p2 * PLL_discriminator)
    let carrier_error_hz := 1 / 2 * x + s.d_pll_b3 * s.d_pll_w0p * PLL_discriminator
    (carrier_error_hz, { s with d_pll_w := w, d_pll_x := x })
  else
    let pll_w_new := s.d_pll_w + PLL_discriminator * s.d_pll_w0p2 * correlation_time_s
      + FLL_discriminator * s.d_pll_w0f * correlation_time_s
    let carrier_error_hz := 1 / 2 * (pll_w_new + s.d_pll_w)
      + s.d_pll_a2 * s.d_pll_w0p * PLL_discriminator
    (carrier_error_hz, { s with d_pll_w := pll_w_new })

/-- A filter whose members are all zero: the state the checks below start
from before `set_params` runs. -/
def zeroFilter (K : Type) [LinearOrderedField K] : Tracking_FLL_PLL_filter K :=
  { d_order := 0, d_pll_w := 0, d_pll_x := 0, d_pll_a2 := 0, d_pll_a3 := 0,
    d_pll_b3 := 0, d_pll_w0p := 0, d_pll_w0p2 := 0, d_pll_w0p3 := 0,
    d_pll_w0f := 0, d_pll_w0f2 := 0 }

/-- Output and filter at epoch `n` (counted from 0) when the filter `s` is
called once per epoch with the discriminator errors and correlation time
`inp n = (FLL, PLL, T)`. -/
def epochs {K : Type} [LinearOrderedField K] (s : Tracking_FLL_PLL_filter K)
    (inp : Nat → K × K × K) : Nat → K × Tracking_FLL_PLL_filter K
  | 0 => s.get_carrier_error (inp 0).1 (inp 0).2.1 (inp 0).2.2
  | n + 1 =>
    (epochs s inp n).2.get_carrier_error (inp (n + 1)).1 (inp (n + 1)).2.1 (inp (n + 1)).2.2

/-- The input of the step test: errors `(f, p)` at epoch 0, zero errors at
every later epoch, correlation time `T` throughout. -/
def stepInput {K : Type} [LinearOrderedField K] (f p T : K) : Nat → K × K × K :=
  fun n => if n = 0 then (f, p, T) else (0, 0, T)

/-- The input of the seeding test: zero errors at every epoch. -/
def zeroInput {K : Type} [LinearOrderedField K] (T : K) : Nat → K × K × K :=
  fun _ => (0, 0, T)

/-! ## FPGA acquisition adapter: search geometry -/

/-- Modelled from the spec: the constant `GPS_L5I_CODE_RATE_CPS` of `GPS_L5.h`
(GPS L5I chip rate, 10.23e6 chips per second); the header is not among the
sources. -/
def GPS_L5I_CODE_RATE_CPS : ℚ := 10230000

/-- Modelled from the spec: the constant `GPS_L5I_CODE_LENGTH_CHIPS` of
`GPS_L5.h` (10230 chips, a 1 ms code); the header is not among the sources. -/
def GPS_L5I_CODE_LENGTH_CHIPS : Int := 10230

/-- Modelled from the spec: the `uint32_t` constant `NUM_PRNs` of the adapter's
header (32 satellite identifiers, PRN 1 to 32); the header is not among the
sources. -/
def NUM_PRNs : Nat := 32

/-- The C library function `std::round` in exact arithmetic: the nearest
integer, halfway cases away from zero. -/
def cround (x : ℚ) : Int :=
  if 0 ≤ x then ⌊x + 1 / 2⌋ else ⌈x - 1 / 2⌉

/-- Conversion of an integer to `uint32_t`, and arithmetic in `uint32_t`: the
value modulo `2^32`. -/
def toUInt32 (z : Int) : Nat :=
  (z % 2 ^ 32).toNat

/-- Conversion of an integral floating-point value to `uint32_t`
(`static_cast<uint32_t>` of a `double`, or the initialisation of a `uint32_t`
from one). The conversion is defined only for a value the type can hold;
`none` is a value out of range, for which C++ defines no result. -/
def double_to_uint32 (z : Int) : Option Nat :=
  if 0 ≤ z ∧ z < 2 ^ 32 then some z.toNat else none

/-- Line 62, `fs_in = fs_in / downsampling_factor`: a signed 64-bit division
(the `uint32_t` divisor is converted to `int64_t`), truncating toward zero.
The source divides by zero when the factor is `0`; the callers below exclude
that case. -/
def fs_in_downsampled (fs : Int) (downsampling_factor : Nat) : Int :=
  Int.tdiv fs (downsampling_factor : Int)

/-- Line 73: `static_cast<uint32_t>(std::round(static_cast<double>(fs_in) /
(GPS_L5I_CODE_RATE_CPS / static_cast<double>(GPS_L5I_CODE_LENGTH_CHIPS))))`
in exact arithmetic. -/
def code_length (fs_in : Int) : Option Nat :=
  double_to_uint32
    (cround ((fs_in : ℚ) / (GPS_L5I_CODE_RATE_CPS / (GPS_L5I_CODE_LENGTH_CHIPS : ℚ))))

/-- Line 76: `nbits = ceilf(log2f(static_cast<float>(code_length) * 2.0F))` in
exact arithmetic. `none` stands for the value minus infinity that `log2f`
returns at `0`. -/
def nbits (code_length : Nat) : Option Nat :=
  if code_length = 0 then none else some (Nat.clog 2 (code_length * 2))

/-- Line 77: `uint32_t nsamples_total = pow(2, nbits)`; `pow(2, -inf)` is `0`. -/
def nsamples_total (code_length : Nat) : Option Nat :=
  match nbits code_length with
  | none => some 0
  | some b => double_to_uint32 (2 ^ b)

/-- Line 92: `static_cast<unsigned int>(1 + ceil((1.0 / GPS_L5I_CODE_RATE_CPS) *
static_cast<float>(fs_in)))` in exact arithmetic. -/
def excludelimit (fs_in : Int) : Option Nat :=
  double_to_uint32 (1 + ⌈1 / GPS_L5I_CODE_RATE_CPS * (fs_in : ℚ)⌉)

/-- The configuration properties the constructor reads for the search
geometry; `none` is a property that the configuration does not set, so that
`property` returns the default given by the caller. -/
structure ConfigurationInterface where
  internal_fs_hz : Option Int
  internal_fs_sps : Option Int
  downsampling_factor : Option Int

/-- The call `configuration->property(name, default_value)`. -/
def ConfigurationInterface.property {α : Type} (value : Option α) (default_value : α) : α :=
  value.getD default_value

/-- The members of `acq_parameters` (`pcpsconf_fpga_t`) that the constructor
derives from the sample rate. -/
structure pcpsconf_fpga_t where
  downsampling_factor : Nat
  fs_in : Int
  code_length : Nat
  samples_per_code : Nat
  excludelimit : Nat
  deriving DecidableEq

/-- What a completed construction leaves: the parameter block handed to
`pcps_make_acquisition_fpga`, and the number of words of the member
`d_all_fft_codes_`. -/
structure AcquisitionAdapter where
  acq_parameters : pcpsconf_fpga_t
  d_all_fft_codes_size : Nat
  deriving DecidableEq

/-- The ways the constructor can end. -/
inductive Construction where
  /-- The statement `throw std::exception()` of line 87: no device file. -/
  | device_not_found : Construction
  /-- The call `gnss_fft_fwd_make_unique(nsamples_total)` of line 96 did not
  return (the FFT library refused the length). -/
  | fft_plan_failed : Construction
  /-- A step for which C++ defines no result: a division by zero or a
  floating-point value converted to an integer type that cannot hold it. -/
  | undefined_behaviour : Construction
  /-- The constructor ran to its end and made the acquisition engine. -/
  | engine_created (adapter : AcquisitionAdapter) : Construction
  deriving DecidableEq

/-- Lines 53 to 62 of the constructor: the sample rate the search geometry is
derived from. `GNSS-SDR.internal_fs_sps` defaults to `GNSS-SDR.internal_fs_hz`,
which defaults to `2048000`; the downsampling factor defaults to `1` and is
stored in a `uint32_t`. -/
def configured_fs_in (configuration : ConfigurationInterface) : Int :=
  let fs_in_deprecated := ConfigurationInterface.property configuration.internal_fs_hz 2048000
  let fs := ConfigurationInterface.property configuration.internal_fs_sps fs_in_deprecated
  let downsampling_factor :=
    toUInt32 (ConfigurationInterface.property configuration.downsampling_factor 1)
  fs_in_downsampled fs downsampling_factor

/-- Source: the constructor `GpsL5iPcpsAcquisitionFpga::GpsL5iPcpsAcquisitionFpga`,
lines 48 to 158, as far as the search geometry goes. Two outcomes of code
outside the sources are arguments: `device_found` is
`find_uio_dev_file_name(...) >= 0`, and `fft_plan_made n` tells whether
`gnss_fft_fwd_make_unique(n)` returns for the length `n`. The statements run
in the order of the source: sample rate, code length, FFT length, device
lookup (the one `throw` of the constructor), exclusion limit, FFT plan, code
table, engine. The other calls into code outside the sources (buffers, code
generator, engine factory) are taken to return normally. -/
def GpsL5iPcpsAcquisitionFpga (configuration : ConfigurationInterface)
    (device_found : Bool) (fft_plan_made : Nat → Bool) : Construction :=
  let downsampling_factor :=
    toUInt32 (ConfigurationInterface.property configuration.downsampling_factor 1)
  if downsampling_factor = 0 then
    Construction.undefined_behaviour
  else
    let fs_in := configured_fs_in configuration
    match code_length fs_in with
    | none => Construction.undefined_behaviour
    | some code_len =>
      match nsamples_total code_len with
      | none => Construction.undefined_behaviour
      | some nsamples =>
        if device_found = false then
          Construction.device_not_found
        else
          match excludelimit fs_in with
          | none => Construction.undefined_behaviour
          | some limit =>
            if fft_plan_made nsamples = false then
              Construction.fft_plan_failed
            else
              Construction.engine_created
                { acq_parameters :=
                    { downsampling_factor := downsampling_factor
                      fs_in := fs_in
                      code_length := code_len
                      samples_per_code := nsamples
                      excludelimit := limit }
                  d_all_fft_codes_size := nsamples * NUM_PRNs % 2 ^ 32 }

/-- Modelled from the spec: the call `gnss_fft_fwd_make_unique(nsamples_total)`
of line 96; the header `gnss_sdr_fft.h` and the FFT library behind it are not
among the sources. The `uint32_t` length is passed as an `int`; the plan is
made when that `int` is positive and the call throws otherwise, so that a
search geometry with FFT length `0` is refused at construction. -/
def gnss_fft_fwd_make_unique (nsamples_total : Nat) : Bool :=
  decide (0 < nsamples_total % 2 ^ 32 ∧ nsamples_total % 2 ^ 32 < 2 ^ 31)

/-! ## FPGA acquisition adapter: packing of the code words -/

/-- Modelled from the spec: the constant `quant_bits_local_code` of the
adapter's header (16 bits per lane); the header is not among the sources. -/
def quant_bits_local_code : Nat := 16

/-- Modelled from the spec: the `uint32_t` constant `select_lsbits` of the
adapter's header; the header is not among the sources. -/
def select_lsbits : Nat := 0x0000FFFF

/-- Modelled from the spec: the `uint32_t` constant `select_msbits` of the
adapter's header; the header is not among the sources. -/
def select_msbits : Nat := 0xFFFF0000

/-- Modelled from the spec: the `uint32_t` constant `select_all_code_bits` of
the adapter's header; the header is not among the sources. -/
def select_all_code_bits : Nat := 0xFFFFFFFF

/-- Modelled from the spec: the `uint32_t` constant `shl_code_bits` of the
adapter's header; the header is not among the sources. -/
def shl_code_bits : Nat := 65536

/-- Storing a `uint32_t` value in an `int32_t`: the two's-complement reading
of the same 32 bits. -/
def toInt32 (n : Nat) : Int :=
  if n % 2 ^ 32 < 2 ^ 31 then (n % 2 ^ 32 : Nat) else (n % 2 ^ 32 : Nat) - 2 ^ 32

/-- Lines 143 to 145: the word stored in `d_all_fft_codes_` for the quantised
pair `(tmp, tmp2)`. The `int32_t` operands meet `uint32_t` constants, so each
operation is done on 32-bit unsigned values; `local_code` and `fft_data` are
`int32_t` variables and the table element is a `uint32_t`. -/
def packed_word (tmp tmp2 : Int) : Nat :=
  let local_code : Int :=
    toInt32 ((toUInt32 tmp &&& select_lsbits)
      ||| ((toUInt32 tmp2 * shl_code_bits) % 2 ^ 32 &&& select_msbits))
  let fft_data : Int := toInt32 (toUInt32 local_code &&& select_all_code_bits)
  toUInt32 fft_data

/-- The value of a 16-bit lane read as a two's-complement number. -/
def signExtend16 (lane : Nat) : Int :=
  if lane < 2 ^ 15 then (lane : Int) else (lane : Int) - 2 ^ 16

/-- The low 16-bit lane of a packed word. -/
def lowLane (word : Nat) : Nat := word % 2 ^ 16

/-- The high 16-bit lane of a packed word. -/
def highLane (word : Nat) : Nat := word / 2 ^ 16 % 2 ^ 16

/-! ## FPGA acquisition adapter: reference code table -/

/-- Line 99: the number of words of `d_all_fft_codes_`,
`nsamples_total * NUM_PRNs` computed in `uint32_t`. -/
def all_fft_codes_size (nsamples_total : Nat) : Nat :=
  nsamples_total * NUM_PRNs % 2 ^ 32

/-- Line 145: the index `i + (nsamples_total * (PRN - 1))` of the word written
for bin `i` of satellite `PRN`; the three operands are `uint32_t` variables,
so each operation is done modulo `2^32`. -/
def fft_code_slot (nsamples_total PRN i : Nat) : Nat :=
  (i + nsamples_total * toUInt32 ((PRN : Int) - 1) % 2 ^ 32) % 2 ^ 32

/-! ## Correlator bank -/

/-- The two kernels of the volk_gnsssdr library and the phase computations of
the C++ math library that the correlator calls. None of them is among the
sources, so they are parameters: each is an arbitrary function of its
arguments. A pointer argument is the array it refers to, and the tap buffers
handed to the dot-product kernel are the `num_points` first samples of each of
the `num_a_vectors` buffers, which is all the kernel is given to read. -/
structure Kernels (S F C : Type) where
  /-- The sample written by `volk_gnsssdr_16ic_xn_resampler_16ic_xn` to place `i`
  of tap buffer `n`, from `local_code`, `rem_code_phase_chips`,
  `code_phase_step_chips`, `shifts_chips`, `code_length_chips`,
  `num_out_vectors` and `num_points`. -/
  resampler : (Nat → S) → F → F → (Nat → F) → Int → Nat → Nat → Nat → Nat → S
  /-- The value written by `volk_gnsssdr_16ic_x2_rotator_dot_prod_16ic_xn` to
  output slot `n`, from `in_common`, `phase_inc`, `phase`, the tap buffers
  `in_a`, `num_a_vectors` and `num_points`. -/
  rotator_dot_prod : (Nat → S) → C → C → List (List S) → Nat → Nat → Nat → S
  /-- The value `lv_cmake(std::cos(x), -std::sin(x))`. -/
  phase_offset : F → C
  /-- The value `std::exp(lv_32fc_t(0, -x))`. -/
  phase_increment : F → C

/-- The data members of `Cpu_Multicorrelator_16sc` that the correlation reads
and writes. A pointer member is modelled by the array it refers to (index to
sample); `d_local_codes_resampled n i` is sample `i` of tap buffer `n`. The
arrays are separate objects. Counts and lengths are natural numbers. -/
@[ext]
structure Cpu_Multicorrelator_16sc (S F : Type) where
  d_sig_in : Nat → S
  d_local_codes_resampled : Nat → Nat → S
  d_local_code_in : Nat → S
  d_corr_out : Nat → S
  d_shifts_chips : Nat → F
  d_code_length_chips : Int
  d_n_correlators : Nat

/-- Source: `Cpu_Multicorrelator_16sc::set_local_code_and_taps`. -/
def Cpu_Multicorrelator_16sc.set_local_code_and_taps {S F : Type}
    (c : Cpu_Multicorrelator_16sc S F) (code_length_chips : Int) (local_code_in : Nat → S)
    (shifts_chips : Nat → F) : Cpu_Multicorrelator_16sc S F :=
  { c with
    d_local_code_in := local_code_in
    d_shifts_chips := shifts_chips
    d_code_length_chips := code_length_chips }

/-- Source: `Cpu_Multicorrelator_16sc::set_input_output_vectors`. -/
def Cpu_Multicorrelator_16sc.set_input_output_vectors {S F : Type}
    (c : Cpu_Multicorrelator_16sc S F) (corr_out : Nat → S) (sig_in : Nat → S) :
    Cpu_Multicorrelator_16sc S F :=
  { c with d_sig_in := sig_in, d_corr_out := corr_out }

/-- Source: `Cpu_Multicorrelator_16sc::update_local_code`: the resampler kernel
fills the `correlator_length_samples` first samples of each of the
`d_n_correlators` tap buffers; every other sample keeps its value. -/
def Cpu_Multicorrelator_16sc.update_local_code {S F C : Type} (k : Kernels S F C)
    (c : Cpu_Multicorrelator_16sc S F) (correlator_length_samples : Nat)
    (rem_code_phase_chips code_phase_step_chips : F) : Cpu_Multicorrelator_16sc S F :=
  { c with
    d_local_codes_resampled := fun n i =>
      if n < c.d_n_correlators ∧ i < correlator_length_samples then
        k.resampler c.d_local_code_in rem_code_phase_chips code_phase_step_chips
          c.d_shifts_chips c.d_code_length_chips c.d_n_correlators
          correlator_length_samples n i
      else c.d_local_codes_resampled n i }

/-- Source: `Cpu_Multicorrelator_16sc::Carrier_wipeoff_multicorrelator_resampler`
(it always returns `true`; the result here is the object after the call). The
local code is resampled, the phase offset is computed afresh from
`rem_carrier_phase_in_rad`, and the dot-product kernel fills the
`d_n_correlators` first output slots. -/
def Cpu_Multicorrelator_16sc.Carrier_wipeoff_multicorrelator_resampler {S F C : Type}
    (k : Kernels S F C) (c : Cpu_Multicorrelator_16sc S F)
    (rem_carrier_phase_in_rad phase_step_rad rem_code_phase_chips code_phase_step_chips : F)
    (signal_length_samples : Nat) : Cpu_Multicorrelator_16sc S F :=
  let c1 := c.update_local_code k signal_length_samples rem_code_phase_chips
    code_phase_step_chips
  let phase_offset_as_complex := k.phase_offset rem_carrier_phase_in_rad
  let in_a := (List.range c1.d_n_correlators).map
    (fun n => (List.range signal_length_samples).map (c1.d_local_codes_resampled n))
  { c1 with
    d_corr_out := fun n =>
      if n < c1.d_n_correlators then
        k.rotator_dot_prod c1.d_sig_in (k.phase_increment phase_step_rad)
          phase_offset_as_complex in_a c1.d_n_correlators signal_length_samples n
      else c1.d_corr_out n }

/-! ## Correlator bank: tap buffer allocation -/

/-- Modelled from the spec: the allocator behind `volk_gnsssdr_malloc` and
`volk_gnsssdr_free`, which is not among the sources. Blocks are numbered in
the order of their allocation; `live` lists the blocks allocated and not yet
released, `released` every release in the order it was made (a block released
twice is listed twice). -/
structure Allocator where
  next_block : Nat
  live : List Nat
  released : List Nat
  deriving DecidableEq

/-- Modelled from the spec: a call of `volk_gnsssdr_malloc`, which returns a
fresh block (the call is taken to succeed). -/
def volk_gnsssdr_malloc (heap : Allocator) : Nat × Allocator :=
  (heap.next_block,
    { next_block := heap.next_block + 1
      live := heap.live ++ [heap.next_block]
      released := heap.released })

/-- Modelled from the spec: a call of `volk_gnsssdr_free` on the block `b`. -/
def volk_gnsssdr_free (heap : Allocator) (b : Nat) : Allocator :=
  { next_block := heap.next_block
    live := heap.live.filter (fun x => x ≠ b)
    released := heap.released ++ [b] }

/-- The members of `Cpu_Multicorrelator_16sc` that `init` and `free` manage:
the tap count and the pointer `d_local_codes_resampled`, which is null
(`none`) or the block of the pointer table together with the tap buffers whose
addresses the table holds. -/
structure TapBuffers where
  d_n_correlators : Nat
  d_local_codes_resampled : Option (Nat × List Nat)
  deriving DecidableEq

/-- The loop of lines 35 to 38 of `init`: `count` tap buffers are allocated one
after the other and their addresses stored in the table. -/
def allocate_taps : Nat → Allocator → List Nat × Allocator
  | 0, heap => ([], heap)
  | count + 1, heap =>
    let (b, heap1) := volk_gnsssdr_malloc heap
    let (rest, heap2) := allocate_taps count heap1
    (b :: rest, heap2)

/-- Source: `Cpu_Multicorrelator_16sc::init(max_signal_length_samples,
n_correlators)`. The tap count and the pointer are overwritten; nothing is
released. The size of the tap buffers plays no part in the bookkeeping. -/
def TapBuffers.init (_c : TapBuffers) (heap : Allocator) (_max_signal_length_samples : Nat)
    (n_correlators : Nat) : TapBuffers × Allocator :=
  let (table, heap1) := volk_gnsssdr_malloc heap
  let (taps, heap2) := allocate_taps n_correlators heap1
  ({ d_n_correlators := n_correlators, d_local_codes_resampled := some (table, taps) }, heap2)

/-- Source: `Cpu_Multicorrelator_16sc::free()`. With a non-null pointer the
`d_n_correlators` first tap buffers of the table are released, then the table,
and the pointer is set to null. -/
def TapBuffers.free (c : TapBuffers) (heap : Allocator) : TapBuffers × Allocator :=
  match c.d_local_codes_resampled with
  | none => (c, heap)
  | some (table, taps) =>
    let heap1 := (taps.take c.d_n_correlators).foldl volk_gnsssdr_free heap
    ({ c with d_local_codes_resampled := none }, volk_gnsssdr_free heap1 table)

/-- Source: the destructor `Cpu_Multicorrelator_16sc::~Cpu_Multicorrelator_16sc`. -/
def TapBuffers.destructor (c : TapBuffers) (heap : Allocator) : TapBuffers × Allocator :=
  match c.d_local_codes_resampled with
  | none => (c, heap)
  | some _ => c.free heap

/-- A call made on the instance. -/
inductive Call where
  | init (max_signal_length_samples n_correlators : Nat) : Call
  | free : Call
  | destroy : Call
  deriving DecidableEq

/-- The instance and the allocator after a sequence of calls. -/
def run_calls : List Call → TapBuffers × Allocator → TapBuffers × Allocator
  | [], state => state
  | Call.init len n :: rest, state => run_calls rest (state.1.init state.2 len n)
  | Call.free :: rest, state => run_calls rest (state.1.free state.2)
  | Call.destroy :: rest, state => run_calls rest (state.1.destructor state.2)

/-- A newly constructed instance and an allocator that has not allocated
anything. The class declaration is not among the sources; the pointer of a new
instance is taken to be null, which is what the test in the destructor relies
on. `init` does not read the instance, so nothing below depends on it. -/
def fresh_instance : TapBuffers × Allocator :=
  ({ d_n_correlators := 0, d_local_codes_resampled := none },
    { next_block := 0, live := [], released := [] })

/-! ## FPGA acquisition adapter: quantisation of the code spectrum -/

/-- Lines 125 to 136: the maxima search. `max` starts at `0` and, bin by bin,
is replaced by the magnitude of the real part and then of the imaginary part
whenever that is larger. A bin of `fft_codes_padded` is the pair
`(real, imag)`. -/
def max_search {K : Type} [LinearOrderedField K] (fft_codes_padded : List (K × K)) : K :=
  fft_codes_padded.foldl
    (fun max bin =>
      let max_re := if |bin.1| > max then |bin.1| else max
      if |bin.2| > max_re then |bin.2| else max_re)
    0

/-- Conversion of an integral floating-point value to `int32_t`
(`static_cast<int32_t>` of a `double`), defined only for a value the type can
hold. -/
def double_to_int32 (z : Int) : Option Int :=
  if -2 ^ 31 ≤ z ∧ z < 2 ^ 31 then some z else none

/-- Lines 141 and 142: `static_cast<int32_t>(floor(v * (pow(2,
quant_bits_local_code - 1) - 1) / max))` for a component `v` of a bin, in
exact arithmetic. -/
def quantise {K : Type} [LinearOrderedField K] [FloorRing K] (v max : K) : Option Int :=
  double_to_int32 ⌊v * (2 ^ (quant_bits_local_code - 1) - 1) / max⌋

/-! ## FPGA acquisition adapter: padding of the reference code -/

/-- Lines 111 to 114: the loop `for (s = code_length; s < 2 * code_length; s++)
code[s] = code[s - code_length]`, with `count` iterations left and the loop
variable at `s`. The buffer is a list of its elements; an element read or
written outside the buffer makes the result `none`. -/
def copy_loop {S : Type} (code_length : Nat) : Nat → Nat → List S → Option (List S)
  | 0, _, code => some code
  | count + 1, s, code =>
    match code[s - code_length]? with
    | none => none
    | some v =>
      if s < code.length then copy_loop code_length count (s + 1) (code.set s v) else none

/-- Lines 116 to 120: the loop `for (s = 2 * code_length; s < nsamples_total;
s++) code[s] = std::complex<float>(0.0, 0.0)`, with `count` iterations left
and the loop variable at `s`; a write outside the buffer makes the result
`none`. -/
def zero_loop {S : Type} [Zero S] : Nat → Nat → List S → Option (List S)
  | 0, _, code => some code
  | count + 1, s, code =>
    if s < code.length then zero_loop count (s + 1) (code.set s 0) else none

/-- Lines 111 to 120: the two padding loops on the buffer `code` as the code
generator left it. The bound `2 * code_length` is computed in `uint32_t`; a
loop whose start is not below its bound does not run. -/
def pad_code {S : Type} [Zero S] (code_length nsamples_total : Nat) (code : List S) :
    Option (List S) :=
  let twice := 2 * code_length % 2 ^ 32
  match copy_loop code_length (twice - code_length) code_length code with
  | none => none
  | some copied => zero_loop (nsamples_total - twice) twice copied

/-! ## Carrier loop filter: helper lemmas -/

/-- The order stored by `set_params` is the order passed in. -/
lemma set_params_order {K : Type} [LinearOrderedField K]
    (s : Tracking_FLL_PLL_filter K) (fll_bw pll_bw : K) (order : Int) :
    (s.set_params fll_bw pll_bw order).d_order = order := by
  unfold Tracking_FLL_PLL_filter.set_params
  split <;> rfl

/-- One call of the order-2 branch with zero errors returns the integrator
and changes nothing. -/
lemma get_carrier_error_zero_order2 {K : Type} [LinearOrderedField K]
    (s : Tracking_FLL_PLL_filter K) (h : s.d_order ≠ 3) (T : K) :
    s.get_carrier_error 0 0 T = (s.d_pll_w, s) := by
  unfold Tracking_FLL_PLL_filter.get_carrier_error
  rw [if_neg h]
  refine Prod.ext ?_ ?_
  · simp only; ring
  · ext <;> simp

/-- One call of the order-3 branch with zero errors keeps `d_pll_w`, adds
`T * (0.5 * d_pll_w)` to `d_pll_x` and returns half of the new `d_pll_x`. -/
lemma get_carrier_error_zero_order3 {K : Type} [LinearOrderedField K]
    (s : Tracking_FLL_PLL_filter K) (h : s.d_order = 3) (T : K) :
    s.get_carrier_error 0 0 T
      = (1 / 2 * (s.d_pll_x + T * (1 / 2 * s.d_pll_w)),
          { s with d_pll_x := s.d_pll_x + T * (1 / 2 * s.d_pll_w) }) := by
  unfold Tracking_FLL_PLL_filter.get_carrier_error
  rw [if_pos h]
  refine Prod.ext ?_ ?_
  · simp only; ring
  · ext <;> simp

/-- Closed form of the order-3 step response: after the first epoch the
filter only accumulates `T * (0.5 * w1)` into `d_pll_x` at every epoch. -/
lemma epochs_step_order3 {K : Type} [LinearOrderedField K]
    (s : Tracking_FLL_PLL_filter K) (h : s.d_order = 3) (f p T : K) (n : Nat) :
    let s1 := (s.get_carrier_error f p T).2
    epochs s (stepInput f p T) (n + 1)
      = (1 / 2 * (s1.d_pll_x + (n + 1 : K) * (T * (1 / 2 * s1.d_pll_w))),
          { s1 with d_pll_x := s1.d_pll_x + (n + 1 : K) * (T * (1 / 2 * s1.d_pll_w)) }) := by
  intro s1
  have h1 : s1.d_order = 3 := by
    simp only [s1, Tracking_FLL_PLL_filter.get_carrier_error, if_pos h]
    exact h
  induction n with
  | zero =>
    have e0 : epochs s (stepInput f p T) 0 = s.get_carrier_error f p T := by
      simp [epochs, stepInput]
    have e1 : epochs s (stepInput f p T) (0 + 1)
        = (epochs s (stepInput f p T) 0).2.get_carrier_error 0 0 T := by
      simp [epochs, stepInput]
    rw [e1, e0, get_carrier_error_zero_order3 _ h1]
    refine Prod.ext ?_ ?_
    · simp only [Nat.cast_zero]; ring
    · ext <;> simp
  | succ n ih =>
    have e1 : epochs s (stepInput f p T) (n + 1 + 1)
        = (epochs s (stepInput f p T) (n + 1)).2.get_carrier_error 0 0 T := by
      simp [epochs, stepInput]
    rw [e1, ih, get_carrier_error_zero_order3 _ (by simpa using h1)]
    refine Prod.ext ?_ ?_
    · simp only [Nat.cast_add, Nat.cast_one]; ring
    · ext <;> simp only [Nat.cast_add, Nat.cast_one]
      ring

/-! ## Carrier loop filter: recurrences -/

/-- C1: with any order other than 3, `get_carrier_error f p T` on integrator
state `w` returns `0.5*(w_new + w) + a2*wp*p`, leaves `d_pll_w = w_new` where
`w_new = w + (p*wp^2 + f*wf)*T`, `a2 = 1.414`, `wp = pll_bw/0.53`,
`wf = fll_bw/0.25`, and leaves `d_pll_x` unchanged. -/
theorem get_carrier_error_order2 {K : Type} [LinearOrderedField K]
    (s0 : Tracking_FLL_PLL_filter K) (fll_bw pll_bw : K) (order : Int)
    (horder : order ≠ 3) (f p T : K) :
    let s := s0.set_params fll_bw pll_bw order
    let wp := pll_bw / (53 / 100)
    let wf := fll_bw / (25 / 100)
    let w := s.d_pll_w
    let w_new := w + (p * wp ^ 2 + f * wf) * T
    (s.get_carrier_error f p T).1 = 1 / 2 * (w_new + w) + 1414 / 1000 * wp * p
      ∧ (s.get_carrier_error f p T).2.d_pll_w = w_new
      ∧ (s.get_carrier_error f p T).2.d_pll_x = s.d_pll_x
      ∧ s.d_pll_w = s0.d_pll_w := by
  simp only [Tracking_FLL_PLL_filter.set_params, Tracking_FLL_PLL_filter.get_carrier_error,
    if_neg horder]
  refine ⟨?_, ?_, trivial, trivial⟩ <;> ring

/-- Witness for C1 at order 2, bandwidths `fll_bw = 0.25`, `pll_bw = 0.53`
(so `wp = wf = 1`), `w = 0`, `f = p = T = 1`: the output is `2.414` and the
integrator moves to `2`. -/
theorem get_carrier_error_order2_witness :
    (2 : Int) ≠ 3
      ∧ ((((zeroFilter ℚ).set_params (25 / 100) (53 / 100) 2).get_carrier_error 1 1 1).1
          = 1207 / 500
        ∧ (((zeroFilter ℚ).set_params (25 / 100) (53 / 100) 2).get_carrier_error
            1 1 1).2.d_pll_w = 2) := by
  have h := get_carrier_error_order2 (zeroFilter ℚ) (25 / 100) (53 / 100) 2 (by decide) 1 1 1
  refine ⟨by decide, ?_, ?_⟩
  · rw [h.1]; norm_num [Tracking_FLL_PLL_filter.set_params, zeroFilter]
  · rw [h.2.1]; norm_num [Tracking_FLL_PLL_filter.set_params, zeroFilter]

/-- C2: with order 3, `get_carrier_error f p T` on state `(x, w)` performs
`w' = w + T*(wp^3*p + wf^2*f)`, then `x' = x + T*(0.5*w' + a2*wf*f + a3*wp^2*p)`
(reading the new `w'`), returns `0.5*x' + b3*wp*p` and leaves the state
`(x', w')`, with `a2 = 1.414`, `a3 = 1.1`, `b3 = 2.4`, `wp = pll_bw/0.7845`,
`wf = fll_bw/0.53`. -/
theorem get_carrier_error_order3 {K : Type} [LinearOrderedField K]
    (s0 : Tracking_FLL_PLL_filter K) (fll_bw pll_bw f p T : K) :
    let s := s0.set_params fll_bw pll_bw 3
    let wp := pll_bw / (7845 / 10000)
    let wf := fll_bw / (53 / 100)
    let x := s.d_pll_x
    let w := s.d_pll_w
    let w' := w + T * (wp ^ 3 * p + wf ^ 2 * f)
    let x' := x + T * (1 / 2 * w' + 1414 / 1000 * wf * f + 11 / 10 * wp ^ 2 * p)
    (s.get_carrier_error f p T).1 = 1 / 2 * x' + 24 / 10 * wp * p
      ∧ (s.get_carrier_error f p T).2.d_pll_x = x'
      ∧ (s.get_carrier_error f p T).2.d_pll_w = w'
      ∧ x = s0.d_pll_x ∧ w = s0.d_pll_w := by
  simp only [Tracking_FLL_PLL_filter.set_params, Tracking_FLL_PLL_filter.get_carrier_error,
    if_true]
  refine ⟨?_, ?_, ?_, trivial, trivial⟩ <;> ring

/-! ## Carrier loop filter: seeding and step response -/

/-- C3: after `set_params` and `initialize d`, every call
`get_carrier_error 0 0 T` of a run of any length returns exactly `d` and leaves
the filter as seeded; the seeded state is `x = 2*d, w = 0` for order 3 and
`w = d, x = 0` for any other order. -/
theorem seeded_run_returns_doppler {K : Type} [LinearOrderedField K]
    (s0 : Tracking_FLL_PLL_filter K) (fll_bw pll_bw : K) (order : Int) (d T : K)
    (n : Nat) :
    let s := Tracking_FLL_PLL_filter.initialize (s0.set_params fll_bw pll_bw order) d
    (epochs s (zeroInput T) n).1 = d
      ∧ (epochs s (zeroInput T) n).2 = s
      ∧ (order = 3 → s.d_pll_x = 2 * d ∧ s.d_pll_w = 0)
      ∧ (order ≠ 3 → s.d_pll_w = d ∧ s.d_pll_x = 0) := by
  intro s
  have hord : s.d_order = order := by
    simp only [s, Tracking_FLL_PLL_filter.initialize, set_params_order]
    split <;> rfl
  have hx3 : order = 3 → s.d_pll_x = 2 * d ∧ s.d_pll_w = 0 := by
    intro h
    simp [s, Tracking_FLL_PLL_filter.initialize, set_params_order, h]
  have hx2 : order ≠ 3 → s.d_pll_w = d ∧ s.d_pll_x = 0 := by
    intro h
    simp [s, Tracking_FLL_PLL_filter.initialize, set_params_order, h]
  have hstep : s.get_carrier_error 0 0 T = (d, s) := by
    by_cases h : order = 3
    · rw [get_carrier_error_zero_order3 s (hord.trans h)]
      obtain ⟨hx, hw⟩ := hx3 h
      refine Prod.ext ?_ ?_
      · simp only [hx, hw]; ring
      · ext <;> simp [hw]
    · rw [get_carrier_error_zero_order2 s (by rw [hord]; exact h)]
      rw [(hx2 h).1]
  have hrun : epochs s (zeroInput T) n = (d, s) := by
    induction n with
    | zero => simpa [epochs, zeroInput] using hstep
    | succ k ih =>
      have e : epochs s (zeroInput T) (k + 1)
          = (epochs s (zeroInput T) k).2.get_carrier_error 0 0 T := by
        simp [epochs, zeroInput]
      rw [e, ih]
      exact hstep
  exact ⟨by rw [hrun], by rw [hrun], hx3, hx2⟩

/-- C8: with any order other than 3, after one epoch with errors `(f, p)`
every later epoch with zero errors returns the same constant
`w1 = w0 + (p*wp^2 + f*wf)*T` and the integrator stays at `w1`. -/
theorem step_response_order2 {K : Type} [LinearOrderedField K]
    (s0 : Tracking_FLL_PLL_filter K) (fll_bw pll_bw : K) (order : Int)
    (horder : order ≠ 3) (f p T : K) (n : Nat) (hn : 1 ≤ n) :
    let s := s0.set_params fll_bw pll_bw order
    let w1 := s0.d_pll_w + (p * (pll_bw / (53 / 100)) ^ 2 + f * (fll_bw / (25 / 100))) * T
    (epochs s (stepInput f p T) n).1 = w1
      ∧ (epochs s (stepInput f p T) n).2.d_pll_w = w1
      ∧ (epochs s (stepInput f p T) n).2 = { s with d_pll_w := w1 } := by
  intro s w1
  have hord : s.d_order ≠ 3 := by rw [set_params_order]; exact horder
  have h0 : (epochs s (stepInput f p T) 0).2 = { s with d_pll_w := w1 } := by
    simp only [epochs, stepInput, if_true, Tracking_FLL_PLL_filter.get_carrier_error,
      if_neg hord]
    ext
    case d_pll_w =>
      simp only [s, w1, Tracking_FLL_PLL_filter.set_params, if_neg horder]
      ring
    all_goals rfl
  have hrun : ∀ k : Nat, epochs s (stepInput f p T) (k + 1) = (w1, { s with d_pll_w := w1 }) := by
    intro k
    induction k with
    | zero =>
      have e : epochs s (stepInput f p T) (0 + 1)
          = (epochs s (stepInput f p T) 0).2.get_carrier_error 0 0 T := by
        simp [epochs, stepInput]
      rw [e, h0, get_carrier_error_zero_order2 _ (by simpa using hord)]
    | succ k ih =>
      have e : epochs s (stepInput f p T) (k + 1 + 1)
          = (epochs s (stepInput f p T) (k + 1)).2.get_carrier_error 0 0 T := by
        simp [epochs, stepInput]
      rw [e, ih, get_carrier_error_zero_order2 _ (by simpa using hord)]
  obtain ⟨k, rfl⟩ : ∃ k, n = k + 1 := ⟨n - 1, by omega⟩
  rw [hrun k]
  exact ⟨rfl, rfl, rfl⟩

/-- Witness for C8 at order 2, `wp = wf = 1`, `w0 = 0`, `f = p = T = 1`: the
output at epoch 3 is `w1 = 2`. -/
theorem step_response_order2_witness :
    (2 : Int) ≠ 3 ∧ 1 ≤ 3
      ∧ (epochs ((zeroFilter ℚ).set_params (25 / 100) (53 / 100) 2) (stepInput 1 1 1) 3).1
          = 2 := by
  have h := step_response_order2 (zeroFilter ℚ) (25 / 100) (53 / 100) 2 (by decide) 1 1 1 3
    (by decide)
  refine ⟨by decide, by decide, ?_⟩
  rw [h.1]
  norm_num [zeroFilter]

/-- C7, counterexample: order 3 with `wp = wf = 1` (`pll_bw = 0.7845`,
`fll_bw = 0.53`), seeded at `d = 0`, PLL error `1` at the first epoch and zero
errors afterwards, `T = 1`: the outputs are `0.8 + n/4` and no bound holds for
all of them. -/
theorem step_response_order3_unbounded :
    ¬ ∃ B : ℚ, ∀ n : Nat,
      |(epochs ( Tracking_FLL_PLL_filter.initialize
          ((zeroFilter ℚ).set_params (53 / 100) (7845 / 10000) 3) 0)
          (stepInput 0 1 1) n).1| ≤ B := by
  rintro ⟨B, hB⟩
  obtain ⟨m, hm⟩ := exists_nat_gt (4 * B)
  have hs : ( Tracking_FLL_PLL_filter.initialize
      ((zeroFilter ℚ).set_params (53 / 100) (7845 / 10000) 3) 0).d_order = 3 := by
    simp [ Tracking_FLL_PLL_filter.initialize, Tracking_FLL_PLL_filter.set_params]
  have h := hB (m + 1)
  rw [epochs_step_order3 _ hs] at h
  have hval : (1 / 2 * ((( Tracking_FLL_PLL_filter.initialize
      ((zeroFilter ℚ).set_params (53 / 100) (7845 / 10000) 3) 0).get_carrier_error
        0 1 1).2.d_pll_x + ((m : ℚ) + 1) * (1 * (1 / 2 *
      (( Tracking_FLL_PLL_filter.initialize
      ((zeroFilter ℚ).set_params (53 / 100) (7845 / 10000) 3) 0).get_carrier_error
        0 1 1).2.d_pll_w)))) = 4 / 5 + ((m : ℚ) + 1) / 4 := by
    norm_num [ Tracking_FLL_PLL_filter.initialize, Tracking_FLL_PLL_filter.set_params,
      Tracking_FLL_PLL_filter.get_carrier_error, zeroFilter]
    ring
  simp only at h
  rw [hval] at h
  have h2 := (abs_le.mp h).2
  linarith

/-- C7 (amended): for the order-3 filter seeded by `initialize d`, fed errors
`(f, p)` at the first epoch and zero errors afterwards with a fixed `T > 0`,
the integrator `w` stays at `w1 = T*(wp^3*p + wf^2*f)` and the output at epoch
`n + 1` is `0.5*x1 + (n + 1)*(T*w1/4)`, `x1` being `x` after the first epoch;
the outputs are bounded exactly when `w1 = 0`. -/
theorem step_response_order3 {K : Type} [LinearOrderedField K] [Archimedean K]
    (s0 : Tracking_FLL_PLL_filter K) (fll_bw pll_bw d f p T : K) (hT : 0 < T) :
    let s := Tracking_FLL_PLL_filter.initialize (s0.set_params fll_bw pll_bw 3) d
    let wp := pll_bw / (7845 / 10000)
    let wf := fll_bw / (53 / 100)
    let w1 := T * (wp ^ 3 * p + wf ^ 2 * f)
    let x1 := 2 * d + T * (1 / 2 * w1 + 1414 / 1000 * wf * f + 11 / 10 * wp ^ 2 * p)
    (∀ n : Nat,
        (epochs s (stepInput f p T) (n + 1)).1 = 1 / 2 * x1 + (n + 1 : K) * (T * w1 / 4)
          ∧ (epochs s (stepInput f p T) (n + 1)).2.d_pll_w = w1)
      ∧ ((∃ B : K, ∀ n : Nat, |(epochs s (stepInput f p T) n).1| ≤ B) ↔ w1 = 0) := by
  intro s wp wf w1 x1
  have hs : s.d_order = 3 := by
    simp [s, Tracking_FLL_PLL_filter.initialize, set_params_order]
  have hw1 : (s.get_carrier_error f p T).2.d_pll_w = w1 := by
    simp only [s, w1, wp, wf, Tracking_FLL_PLL_filter.initialize,
      Tracking_FLL_PLL_filter.set_params, Tracking_FLL_PLL_filter.get_carrier_error, if_true]
    ring
  have hx1 : (s.get_carrier_error f p T).2.d_pll_x = x1 := by
    simp only [s, x1, w1, wp, wf, Tracking_FLL_PLL_filter.initialize,
      Tracking_FLL_PLL_filter.set_params, Tracking_FLL_PLL_filter.get_carrier_error, if_true]
    ring
  have hout : ∀ n : Nat,
      (epochs s (stepInput f p T) (n + 1)).1 = 1 / 2 * x1 + (n + 1 : K) * (T * w1 / 4) := by
    intro n
    rw [epochs_step_order3 s hs]
    simp only [hw1, hx1]
    ring
  refine ⟨fun n => ⟨hout n, ?_⟩, ?_, ?_⟩
  · rw [epochs_step_order3 s hs]
    exact hw1
  · rintro ⟨B, hB⟩
    by_contra hne
    have hc : T * w1 / 4 ≠ 0 := by
      have h4 : (4 : K) ≠ 0 := by norm_num
      exact div_ne_zero (mul_ne_zero hT.ne' hne) h4
    have hcpos : 0 < |T * w1 / 4| := abs_pos.mpr hc
    obtain ⟨m, hm⟩ := exists_nat_gt ((B + |1 / 2 * x1|) / |T * w1 / 4|)
    have h := hB (m + 1)
    rw [hout m] at h
    have h1 : |(m + 1 : K) * (T * w1 / 4)| ≤ B + |1 / 2 * x1| := by
      have h2 : (m + 1 : K) * (T * w1 / 4)
          = (1 / 2 * x1 + (m + 1 : K) * (T * w1 / 4)) - 1 / 2 * x1 := by ring
      rw [h2]
      exact (abs_sub _ _).trans (by linarith)
    rw [abs_mul] at h1
    have hm0 : (0 : K) ≤ (m : K) + 1 := by positivity
    rw [abs_of_nonneg hm0] at h1
    have h3 : (B + |1 / 2 * x1|) / |T * w1 / 4| < (m : K) + 1 := by linarith
    rw [div_lt_iff₀ hcpos] at h3
    linarith
  · intro h0
    refine ⟨max |(epochs s (stepInput f p T) 0).1| |1 / 2 * x1|, fun n => ?_⟩
    cases n with
    | zero => exact le_max_left _ _
    | succ k =>
      rw [hout k, h0]
      simp only [mul_zero, zero_div, add_zero]
      exact le_max_right _ _

/-- Witness for C7 (amended) at `T = 1`, `wp = wf = 1`, `d = 0`, PLL error `1`:
the output at epoch 4 is `0.8 + 4/4 = 1.8`. -/
theorem step_response_order3_witness :
    (0 : ℚ) < 1
      ∧ (epochs ( Tracking_FLL_PLL_filter.initialize
          ((zeroFilter ℚ).set_params (53 / 100) (7845 / 10000) 3) 0)
          (stepInput 0 1 1) (3 + 1)).1 = 9 / 5 := by
  have h := step_response_order3 (zeroFilter ℚ) (53 / 100) (7845 / 10000) 0 0 1 1 (by norm_num)
  refine ⟨by norm_num, ?_⟩
  rw [(h.1 3).1]
  norm_num
/-! ## FPGA acquisition adapter: helper lemmas -/

/-- The exponent computed by `nbits` is the ceiling of the real base-2
logarithm of twice the code length. -/
lemma nbits_eq_ceil_logb (L : Nat) (hL : 1 ≤ L) :
    ∃ b : Nat, nbits L = some b ∧ (b : Int) = ⌈Real.logb 2 ((L : ℝ) * 2)⌉ := by
  refine ⟨Nat.clog 2 (L * 2), by simp [nbits, Nat.one_le_iff_ne_zero.mp hL], ?_⟩
  have h := Real.ceil_logb_natCast (b := 2) (r := ((L * 2 : Nat) : ℝ)) (by positivity)
  rw [Int.clog_natCast] at h
  push_cast at h
  exact h.symm

/-- A value within the range of `uint32_t` is converted to itself. -/
lemma double_to_uint32_of_lt (z : Int) (h0 : 0 ≤ z) (h1 : z < 2 ^ 32) :
    double_to_uint32 z = some z.toNat := by
  unfold double_to_uint32
  rw [if_pos ⟨h0, h1⟩]

/-- With the GPS L5I constants one code period is 1 ms, so the quotient of
line 73 is `fs_in / 1000`. -/
lemma code_period_ratio (fs_in : Int) :
    (fs_in : ℚ) / (GPS_L5I_CODE_RATE_CPS / (GPS_L5I_CODE_LENGTH_CHIPS : ℚ)) = (fs_in : ℚ) / 1000 := by
  norm_num [GPS_L5I_CODE_RATE_CPS, GPS_L5I_CODE_LENGTH_CHIPS]

/-- The value `std::round` returns is within one half of its argument. -/
lemma cround_abs_sub_le (x : ℚ) : |(cround x : ℚ) - x| ≤ 1 / 2 := by
  unfold cround
  rw [abs_le]
  split
  · have h1 := Int.floor_le (x + 1 / 2)
    have h2 := Int.lt_floor_add_one (x + 1 / 2)
    constructor <;> linarith
  · have h1 := Int.le_ceil (x - 1 / 2)
    have h2 := Int.ceil_lt_add_one (x - 1 / 2)
    constructor <;> linarith

/-- On a non-negative sample rate `std::round(fs_in / 1000)` is the integer
quotient `(fs_in + 500) / 1000`. -/
lemma cround_div_thousand (a : Int) (h : 0 ≤ a) :
    cround ((a : ℚ) / 1000) = (a + 500) / 1000 := by
  unfold cround
  have hx : (0 : ℚ) ≤ (a : ℚ) / 1000 := by positivity
  rw [if_pos hx]
  have e : (a : ℚ) / 1000 + 1 / 2 = ((a + 500 : Int) : ℚ) / ((1000 : Nat) : ℚ) := by
    push_cast; ring
  rw [e, Rat.floor_intCast_div_natCast]
  rfl

/-- The code length of a non-negative sample rate, as an integer quotient. -/
lemma code_length_of_nonneg (a : Int) (h : 0 ≤ a) :
    code_length a = double_to_uint32 ((a + 500) / 1000) := by
  unfold code_length
  rw [code_period_ratio, cround_div_thousand a h]

/-- The exclusion limit once the ceiling is known. -/
lemma excludelimit_of_ceil (a c : Int) (hc : ⌈(a : ℚ) / GPS_L5I_CODE_RATE_CPS⌉ = c) :
    excludelimit a = double_to_uint32 (1 + c) := by
  have e : 1 / GPS_L5I_CODE_RATE_CPS * (a : ℚ) = (a : ℚ) / GPS_L5I_CODE_RATE_CPS := by ring
  unfold excludelimit
  rw [e, hc]

/-- The FFT length when the power of two is known. -/
lemma nsamples_total_of_clog (L b : Nat) (hL : L ≠ 0) (hb : Nat.clog 2 (L * 2) = b) :
    nsamples_total L = double_to_uint32 (2 ^ b) := by
  simp only [nsamples_total, nbits, if_neg hL, hb]

/-- The outcome of the constructor once each conversion is known to be
defined: it depends on the device lookup and on the FFT plan only. -/
lemma GpsL5iPcpsAcquisitionFpga_of_defined (configuration : ConfigurationInterface)
    (fft_plan_made : Nat → Bool) (code_len nsamples limit : Nat)
    (hk : toUInt32 (ConfigurationInterface.property configuration.downsampling_factor 1) ≠ 0)
    (hc : code_length (configured_fs_in configuration) = some code_len)
    (hN : nsamples_total code_len = some nsamples)
    (he : excludelimit (configured_fs_in configuration) = some limit) :
    GpsL5iPcpsAcquisitionFpga configuration false fft_plan_made = Construction.device_not_found
      ∧ (fft_plan_made nsamples = false →
          GpsL5iPcpsAcquisitionFpga configuration true fft_plan_made
            = Construction.fft_plan_failed)
      ∧ (fft_plan_made nsamples = true →
          GpsL5iPcpsAcquisitionFpga configuration true fft_plan_made
            = Construction.engine_created
                { acq_parameters :=
                    { downsampling_factor :=
                        toUInt32
                          (ConfigurationInterface.property configuration.downsampling_factor 1)
                      fs_in := configured_fs_in configuration
                      code_length := code_len
                      samples_per_code := nsamples
                      excludelimit := limit }
                  d_all_fft_codes_size := nsamples * NUM_PRNs % 2 ^ 32 }) := by
  generalize hfs : configured_fs_in configuration = fs at hc he
  refine ⟨?_, ?_, ?_⟩
  · unfold GpsL5iPcpsAcquisitionFpga
    rw [hfs]
    simp only [if_neg hk, hc, hN, if_true]
  · intro hfft
    unfold GpsL5iPcpsAcquisitionFpga
    rw [hfs]
    simp only [if_neg hk, hc, hN, he, hfft, if_true]
    rfl
  · intro hfft
    unfold GpsL5iPcpsAcquisitionFpga
    rw [hfs]
    simp only [if_neg hk, hc, hN, he, hfft]
    rfl

/-- The default configuration: sample rate `2048000`, downsampling factor `1`. -/
lemma default_configuration_geometry :
    configured_fs_in ⟨none, none, none⟩ = 2048000
      ∧ code_length 2048000 = some 2048
      ∧ nsamples_total 2048 = some 4096
      ∧ excludelimit 2048000 = some 2 := by
  refine ⟨by decide, ?_, ?_, ?_⟩
  · rw [code_length_of_nonneg _ (by decide)]
    decide
  · rw [nsamples_total_of_clog 2048 12 (by decide) (Nat.clog_pow 2 12 (by decide))]
    decide
  · rw [excludelimit_of_ceil 2048000 1
      (by rw [Int.ceil_eq_iff]; norm_num [GPS_L5I_CODE_RATE_CPS])]
    decide

/-- With the default configuration, the device file found and the FFT plan
made, the constructor makes the engine with code length `2048`, FFT length
`4096` and exclusion limit `2`. -/
lemma default_configuration_constructs :
    GpsL5iPcpsAcquisitionFpga ⟨none, none, none⟩ true (fun _ => true)
      = Construction.engine_created ⟨⟨1, 2048000, 2048, 4096, 2⟩, 131072⟩ := by
  obtain ⟨hf, h2, h3, h4⟩ := default_configuration_geometry
  rw [(GpsL5iPcpsAcquisitionFpga_of_defined ⟨none, none, none⟩ (fun _ => true) 2048 4096 2
    (by decide) (by rw [hf]; exact h2) h3 (by rw [hf]; exact h4)).2.2 rfl, hf]
  decide

/-- The exclusion limit is defined, and is 1 or 2, for a sample rate of less
than one sample per code period in either direction. -/
lemma excludelimit_defined_of_small (a : Int) (h0 : -500 < a) (h1 : a < 500) :
    ∃ limit : Nat, excludelimit a = some limit := by
  have h0' : (-500 : ℚ) < (a : ℚ) := by exact_mod_cast h0
  have h1' : (a : ℚ) < 500 := by exact_mod_cast h1
  have hlo : -1 < ⌈(a : ℚ) / GPS_L5I_CODE_RATE_CPS⌉ := by
    rw [Int.lt_ceil]
    unfold GPS_L5I_CODE_RATE_CPS
    rw [lt_div_iff₀ (by norm_num)]
    push_cast
    linarith
  have hhi : ⌈(a : ℚ) / GPS_L5I_CODE_RATE_CPS⌉ ≤ 1 := by
    rw [Int.ceil_le]
    unfold GPS_L5I_CODE_RATE_CPS
    rw [div_le_iff₀ (by norm_num)]
    push_cast
    linarith
  exact ⟨_, by rw [excludelimit_of_ceil a _ rfl, double_to_uint32_of_lt _ (by omega) (by omega)]⟩

/-- A code length of `0` comes from a sample rate strictly between `-500` and
`500`. -/
lemma fs_in_small_of_code_length_zero (a : Int) (h : code_length a = some 0) :
    -500 < a ∧ a < 500 := by
  unfold code_length at h
  rw [code_period_ratio] at h
  unfold double_to_uint32 at h
  split at h
  · rename_i hr
    have hz : cround ((a : ℚ) / 1000) = 0 := by
      have := Option.some.inj h
      omega
    have habs := cround_abs_sub_le ((a : ℚ) / 1000)
    rw [hz, abs_le] at habs
    have hne1 : a ≠ 500 := by
      rintro rfl
      rw [cround_div_thousand 500 (by decide)] at hz
      exact absurd hz (by decide)
    have hne2 : a ≠ -500 := by
      rintro rfl
      have : cround (((-500 : Int) : ℚ) / 1000) = -1 := by
        unfold cround
        rw [if_neg (by norm_num)]
        rw [Int.ceil_eq_iff]
        norm_num
      rw [this] at hz
      exact absurd hz (by decide)
    have h1 : (a : ℚ) ≤ 500 := by
      have := habs.1
      push_cast at this
      linarith
    have h2 : (-500 : ℚ) ≤ (a : ℚ) := by
      have := habs.2
      push_cast at this
      linarith
    have h1' : a ≤ 500 := by exact_mod_cast h1
    have h2' : -500 ≤ a := by exact_mod_cast h2
    omega
  · exact Option.noConfusion h

/-- Within the range of C4 the power of two fits the 32-bit variable, so
`nsamples_total` is `2 ^ clog2 (2 * L)`. -/
lemma nsamples_total_eq (L : Nat) (h1 : 1 ≤ L) (h2 : L ≤ 2 ^ 30) :
    nsamples_total L = some (2 ^ Nat.clog 2 (L * 2)) := by
  have hc : Nat.clog 2 (L * 2) ≤ 31 := by
    rw [← Nat.le_pow_iff_clog_le (by decide)]
    omega
  have hlt : (2 : Nat) ^ Nat.clog 2 (L * 2) < 2 ^ 32 :=
    lt_of_le_of_lt (Nat.pow_le_pow_right (by decide) hc) (by decide)
  rw [nsamples_total_of_clog L _ (by omega) rfl,
    double_to_uint32_of_lt _ (by positivity) (by exact_mod_cast hlt)]
  congr 1
  exact_mod_cast Int.toNat_natCast (2 ^ Nat.clog 2 (L * 2))

/-! ## FPGA acquisition adapter: FFT length, code length, exclusion window -/

/-- C4, counterexample: the sample rate `2147483648000` gives the code length
`2^31`; the smallest power of two `>= 2*L` is then `2^32`, which the 32-bit
`nsamples_total` cannot hold: the conversion of `pow(2, 32)` has no defined
result, and no stored FFT length is `>= 2*L`. -/
theorem nsamples_total_overflow :
    code_length (fs_in_downsampled 2147483648000 1) = some 2147483648
      ∧ nsamples_total 2147483648 = none
      ∧ ¬ ∃ N : Nat, nsamples_total 2147483648 = some N ∧ 2 * 2147483648 ≤ N := by
  have h1 : code_length (fs_in_downsampled 2147483648000 1) = some 2147483648 := by
    have hf : fs_in_downsampled 2147483648000 1 = 2147483648000 := by decide
    rw [hf, code_length_of_nonneg _ (by decide)]
    decide
  have h2 : nsamples_total 2147483648 = none := by
    rw [nsamples_total_of_clog 2147483648 32 (by decide) (Nat.clog_pow 2 32 (by decide))]
    decide
  refine ⟨h1, h2, ?_⟩
  rintro ⟨N, hN, -⟩
  rw [h2] at hN
  exact Option.noConfusion hN

/-- C4 (amended): for every code length `1 <= L <= 2^30` the FFT length
`nsamples_total` is the smallest power of two `>= 2*L`: it is a power of two,
it is `>= 2*L`, half of it is `< 2*L`, and no power of two `>= 2*L` is
smaller. -/
theorem nsamples_total_smallest_pow2 (L : Nat) (h1 : 1 ≤ L) (h2 : L ≤ 2 ^ 30) :
    ∃ N : Nat, nsamples_total L = some N
      ∧ (∃ k : Nat, N = 2 ^ k)
      ∧ 2 * L ≤ N
      ∧ N / 2 < 2 * L
      ∧ ∀ k : Nat, 2 * L ≤ 2 ^ k → N ≤ 2 ^ k := by
  refine ⟨_, nsamples_total_eq L h1 h2, ⟨_, rfl⟩, ?_, ?_, ?_⟩
  · rw [Nat.mul_comm 2 L]
    exact Nat.le_pow_clog (by decide) _
  · have hlt := Nat.pow_pred_clog_lt_self (b := 2) (by decide) (x := L * 2) (by omega)
    have hpos : 0 < Nat.clog 2 (L * 2) := Nat.clog_pos (by decide) (by omega)
    obtain ⟨c, hc⟩ : ∃ c, Nat.clog 2 (L * 2) = c + 1 := ⟨_, (Nat.succ_pred_eq_of_pos hpos).symm⟩
    rw [hc] at hlt ⊢
    rw [Nat.pow_succ, Nat.mul_div_cancel _ (by decide), Nat.mul_comm 2 L]
    simpa using hlt
  · intro k hk
    rw [Nat.mul_comm 2 L] at hk
    exact Nat.pow_le_pow_right (by decide) ((Nat.le_pow_iff_clog_le (by decide)).mp hk)

/-- Witness for C4 (amended) at code length `2048`: the FFT length is a power
of two between `4096` and `8191`, that is `4096`. -/
theorem nsamples_total_smallest_pow2_witness :
    1 ≤ 2048 ∧ 2048 ≤ 2 ^ 30
      ∧ ∃ N : Nat, nsamples_total 2048 = some N ∧ 2 * 2048 ≤ N ∧ N / 2 < 2 * 2048 := by
  obtain ⟨N, hN, -, h3, h4, -⟩ := nsamples_total_smallest_pow2 2048 (by decide) (by decide)
  exact ⟨by decide, by decide, N, hN, h3, h4⟩

/-- C5, counterexample: at the sample rate `4294967296000` (downsampling
factor 1) the nearest integer to `fs_in * chips / rate` is `2^32`, which the
32-bit `code_length` cannot hold: the conversion has no defined result, and
no stored code length is within one half of the quotient. -/
theorem code_length_out_of_range :
    code_length (fs_in_downsampled 4294967296000 1) = none
      ∧ ¬ ∃ c : Nat, code_length (fs_in_downsampled 4294967296000 1) = some c
          ∧ |((c : Int) : ℚ) - ((fs_in_downsampled 4294967296000 1 : Int) : ℚ)
              * (GPS_L5I_CODE_LENGTH_CHIPS : ℚ) / GPS_L5I_CODE_RATE_CPS| ≤ 1 / 2 := by
  have h1 : code_length (fs_in_downsampled 4294967296000 1) = none := by
    have hf : fs_in_downsampled 4294967296000 1 = 4294967296000 := by decide
    rw [hf, code_length_of_nonneg _ (by decide)]
    decide
  refine ⟨h1, ?_⟩
  rintro ⟨c, hc, -⟩
  rw [h1] at hc
  exact Option.noConfusion hc

/-- C5 (amended): for every sample rate `fs` and downsampling factor `k >= 1`
(a zero factor is a division by zero in the source), with `fs_in = fs / k`
(truncating), whenever the nearest integer fits the 32-bit `code_length`
(`-500 < fs_in < 4294967295500`) the code length is defined and within one
half of `fs_in * code_length_chips / code_rate_cps`; with the default
configuration (`fs = 2048000`, `k = 1`) the code length is `2048` and the FFT
length `4096`. -/
theorem code_length_nearest_integer (fs : Int) (k : Nat) (_hk : 1 ≤ k)
    (hlo : -500 < fs_in_downsampled fs k) (hhi : fs_in_downsampled fs k < 4294967295500) :
    (∃ c : Nat, code_length (fs_in_downsampled fs k) = some c
        ∧ |((c : Int) : ℚ) - ((fs_in_downsampled fs k : Int) : ℚ)
            * (GPS_L5I_CODE_LENGTH_CHIPS : ℚ) / GPS_L5I_CODE_RATE_CPS| ≤ 1 / 2)
      ∧ ∃ adapter : AcquisitionAdapter,
          GpsL5iPcpsAcquisitionFpga ⟨none, none, none⟩ true (fun _ => true)
            = Construction.engine_created adapter
            ∧ adapter.acq_parameters.code_length = 2048
            ∧ adapter.acq_parameters.samples_per_code = 4096 := by
  constructor
  · generalize fs_in_downsampled fs k = a at hlo hhi
    have hx : ((a : ℚ) * (GPS_L5I_CODE_LENGTH_CHIPS : ℚ) / GPS_L5I_CODE_RATE_CPS)
        = (a : ℚ) / 1000 := by
      norm_num [GPS_L5I_CODE_RATE_CPS, GPS_L5I_CODE_LENGTH_CHIPS]
      ring
    have hlo' : (-500 : ℚ) < (a : ℚ) := by exact_mod_cast hlo
    have hhi' : (a : ℚ) < 4294967295500 := by exact_mod_cast hhi
    have h0 : 0 ≤ cround ((a : ℚ) / 1000) := by
      unfold cround
      split
      · exact Int.floor_nonneg.mpr (by linarith)
      · rw [Int.le_ceil_iff]
        push_cast
        linarith
    have h1 : cround ((a : ℚ) / 1000) < 2 ^ 32 := by
      unfold cround
      split
      · rw [Int.floor_lt]
        push_cast
        linarith
      · rw [Int.ceil_lt_iff]
        push_cast
        linarith
    refine ⟨(cround ((a : ℚ) / 1000)).toNat, ?_, ?_⟩
    · unfold code_length
      rw [code_period_ratio, double_to_uint32_of_lt _ h0 h1]
    · rw [hx, Int.toNat_of_nonneg h0]
      exact cround_abs_sub_le _
  · exact ⟨_, default_configuration_constructs, rfl, rfl⟩

/-- Witness for C5 (amended) at `fs = 4096000`, `k = 2`: `fs_in = 2048000` and
the code length is within one half of `2048`. -/
theorem code_length_nearest_integer_witness :
    1 ≤ 2 ∧ -500 < fs_in_downsampled 4096000 2
      ∧ fs_in_downsampled 4096000 2 < 4294967295500
      ∧ ∃ c : Nat, code_length (fs_in_downsampled 4096000 2) = some c
          ∧ |((c : Int) : ℚ) - ((fs_in_downsampled 4096000 2 : Int) : ℚ)
              * (GPS_L5I_CODE_LENGTH_CHIPS : ℚ) / GPS_L5I_CODE_RATE_CPS| ≤ 1 / 2 :=
  ⟨by decide, by decide, by decide,
    (code_length_nearest_integer 4096000 2 (by decide) (by decide) (by decide)).1⟩

/-- C6, counterexample: at the default sample rate `fs_in = 2048000` the
adapter passes `excludelimit = 2`, while `ceil(fs_in / code_rate_cps) = 1`. -/
theorem excludelimit_ne_ceil :
    excludelimit 2048000 = some 2
      ∧ ⌈(2048000 : ℚ) / GPS_L5I_CODE_RATE_CPS⌉ = 1
      ∧ ∃ adapter : AcquisitionAdapter,
          GpsL5iPcpsAcquisitionFpga ⟨none, none, none⟩ true (fun _ => true)
            = Construction.engine_created adapter
            ∧ adapter.acq_parameters.fs_in = 2048000
            ∧ adapter.acq_parameters.excludelimit = 2 := by
  have hc : ⌈((2048000 : Int) : ℚ) / GPS_L5I_CODE_RATE_CPS⌉ = 1 := by
    rw [Int.ceil_eq_iff]
    norm_num [GPS_L5I_CODE_RATE_CPS]
  exact ⟨default_configuration_geometry.2.2.2, by exact_mod_cast hc, _,
    default_configuration_constructs, rfl, rfl⟩

/-- C6 (amended): for every sample rate `0 <= fs_in <= 10230000 * 4294967294`
(so that the result fits 32 bits) the exclusion half-width passed to the
engine is `1 + ceil(fs_in / code_rate_cps)` samples. -/
theorem excludelimit_eq_one_add_ceil (fs_in : Int) (h0 : 0 ≤ fs_in)
    (h1 : fs_in ≤ 10230000 * 4294967294) :
    ∃ limit : Nat, excludelimit fs_in = some limit
      ∧ (limit : Int) = 1 + ⌈(fs_in : ℚ) / GPS_L5I_CODE_RATE_CPS⌉ := by
  have h0' : (0 : ℚ) ≤ (fs_in : ℚ) := by exact_mod_cast h0
  have h1' : (fs_in : ℚ) ≤ 10230000 * 4294967294 := by exact_mod_cast h1
  have hx0 : (0 : ℚ) ≤ (fs_in : ℚ) / GPS_L5I_CODE_RATE_CPS := by
    unfold GPS_L5I_CODE_RATE_CPS
    positivity
  have hx1 : (fs_in : ℚ) / GPS_L5I_CODE_RATE_CPS ≤ ((4294967294 : Int) : ℚ) := by
    unfold GPS_L5I_CODE_RATE_CPS
    rw [div_le_iff₀ (by norm_num)]
    push_cast
    linarith
  have hc0 : 0 ≤ ⌈(fs_in : ℚ) / GPS_L5I_CODE_RATE_CPS⌉ := Int.ceil_nonneg hx0
  have hc1 : ⌈(fs_in : ℚ) / GPS_L5I_CODE_RATE_CPS⌉ ≤ 4294967294 := Int.ceil_le.mpr hx1
  refine ⟨(1 + ⌈(fs_in : ℚ) / GPS_L5I_CODE_RATE_CPS⌉).toNat, ?_, ?_⟩
  · rw [excludelimit_of_ceil fs_in _ rfl, double_to_uint32_of_lt _ (by omega) (by omega)]
  · exact Int.toNat_of_nonneg (by omega)

/-- Witness for C6 (amended) at `fs_in = 2048000`: the half-width is
`1 + ceil(0.2002) = 2`. -/
theorem excludelimit_eq_one_add_ceil_witness :
    (0 : Int) ≤ 2048000 ∧ (2048000 : Int) ≤ 10230000 * 4294967294
      ∧ ∃ limit : Nat, excludelimit 2048000 = some limit
          ∧ (limit : Int) = 1 + ⌈((2048000 : Int) : ℚ) / GPS_L5I_CODE_RATE_CPS⌉ :=
  ⟨by decide, by decide, excludelimit_eq_one_add_ceil 2048000 (by decide) (by decide)⟩

/-! ## FPGA acquisition adapter: construction -/

/-- C9: zero code length is fatal at construction. The constructor has no
test of the code length of its own: for a configuration (with a non-zero
downsampling factor) whose code-length computation yields `0` it derives the
FFT length `0`, and every step up to the FFT plan is defined. With an FFT
library that refuses a plan of length `0`, construction fails whether or not
the accelerator device file is found: without the device file by the `throw`
of line 87, with it at the call `gnss_fft_fwd_make_unique(0)` of line 96; in
neither case is an acquisition engine made. -/
theorem zero_code_length_is_fatal
    (configuration : ConfigurationInterface) (fft_plan_made : Nat → Bool)
    (hk : toUInt32 (ConfigurationInterface.property configuration.downsampling_factor 1) ≠ 0)
    (hzero : code_length (configured_fs_in configuration) = some 0)
    (hfft : fft_plan_made 0 = false) :
    nsamples_total 0 = some 0
      ∧ GpsL5iPcpsAcquisitionFpga configuration false fft_plan_made
          = Construction.device_not_found
      ∧ GpsL5iPcpsAcquisitionFpga configuration true fft_plan_made
          = Construction.fft_plan_failed
      ∧ ∀ (device_found : Bool) (adapter : AcquisitionAdapter),
          GpsL5iPcpsAcquisitionFpga configuration device_found fft_plan_made
            ≠ Construction.engine_created adapter := by
  have hn : nsamples_total 0 = some 0 := by decide
  obtain ⟨hlo, hhi⟩ := fs_in_small_of_code_length_zero _ hzero
  obtain ⟨limit, hlimit⟩ := excludelimit_defined_of_small _ hlo hhi
  obtain ⟨h1, h2, _⟩ :=
    GpsL5iPcpsAcquisitionFpga_of_defined configuration fft_plan_made 0 0 limit hk hzero hn hlimit
  refine ⟨hn, h1, h2 hfft, ?_⟩
  intro device_found adapter
  cases device_found
  · rw [h1]
    exact fun h => Construction.noConfusion h
  · rw [h2 hfft]
    exact fun h => Construction.noConfusion h

/-- Witness for C9 at the configuration with sample rate `400` (0.4 samples per
code period) and the FFT plan factory `gnss_fft_fwd_make_unique`. -/
theorem zero_code_length_is_fatal_witness :
    toUInt32 (ConfigurationInterface.property
        (ConfigurationInterface.mk none (some 400) none).downsampling_factor 1) ≠ 0
      ∧ code_length (configured_fs_in ⟨none, some 400, none⟩) = some 0
      ∧ gnss_fft_fwd_make_unique 0 = false
      ∧ GpsL5iPcpsAcquisitionFpga ⟨none, some 400, none⟩ false gnss_fft_fwd_make_unique
          = Construction.device_not_found
      ∧ GpsL5iPcpsAcquisitionFpga ⟨none, some 400, none⟩ true gnss_fft_fwd_make_unique
          = Construction.fft_plan_failed := by
  have hf : configured_fs_in ⟨none, some 400, none⟩ = 400 := by decide
  have hl : code_length 400 = some 0 := by
    rw [code_length_of_nonneg _ (by decide)]
    decide
  have hz : code_length (configured_fs_in ⟨none, some 400, none⟩) = some 0 := by rw [hf, hl]
  have h := zero_code_length_is_fatal ⟨none, some 400, none⟩ gnss_fft_fwd_make_unique
    (by decide) hz (by decide)
  exact ⟨by decide, hz, by decide, h.2.1, h.2.2.1⟩

/-! ## FPGA acquisition adapter: packing round trip -/

/-- A 32-bit value survives the round trip through an `int32_t` variable. -/
lemma toUInt32_toInt32 (n : Nat) (h : n < 2 ^ 32) : toUInt32 (toInt32 n) = n := by
  unfold toUInt32 toInt32
  split <;> omega

/-- Masking a multiple of `2^16` below `2^32` with `0xFFFF0000` keeps it. -/
lemma and_select_msbits (h : Nat) (hh : h < 2 ^ 16) :
    (2 ^ 16 * h) &&& select_msbits = 2 ^ 16 * h := by
  have hm : select_msbits = 2 ^ 16 * (2 ^ 16 - 1) := by decide
  rw [hm]
  apply Nat.eq_of_testBit_eq
  intro j
  rw [Nat.testBit_and, Nat.testBit_mul_pow_two, Nat.testBit_mul_pow_two,
    Nat.testBit_two_pow_sub_one]
  by_cases hj : 16 ≤ j
  · by_cases hj2 : j - 16 < 16
    · simp [hj, hj2]
    · have hf : h.testBit (j - 16) = false :=
        Nat.testBit_lt_two_pow (lt_of_lt_of_le hh (Nat.pow_le_pow_right (by decide) (by omega)))
      simp [hf]
  · simp [hj]

/-- The stored word is the low 16 bits of `tmp` plus `2^16` times the low 16
bits of `tmp2`. -/
lemma packed_word_eq (tmp tmp2 : Int) :
    packed_word tmp tmp2 = toUInt32 tmp % 2 ^ 16 + 2 ^ 16 * (toUInt32 tmp2 % 2 ^ 16) := by
  have hlo : toUInt32 tmp &&& select_lsbits = toUInt32 tmp % 2 ^ 16 :=
    Nat.and_pow_two_sub_one_eq_mod (toUInt32 tmp) 16
  have hshift : toUInt32 tmp2 * shl_code_bits % 2 ^ 32 = 2 ^ 16 * (toUInt32 tmp2 % 2 ^ 16) := by
    unfold shl_code_bits
    omega
  have hlt16 : toUInt32 tmp2 % 2 ^ 16 < 2 ^ 16 := Nat.mod_lt _ (by decide)
  have hlt16' : toUInt32 tmp % 2 ^ 16 < 2 ^ 16 := Nat.mod_lt _ (by decide)
  have hor : (toUInt32 tmp % 2 ^ 16) ||| (2 ^ 16 * (toUInt32 tmp2 % 2 ^ 16))
      = toUInt32 tmp % 2 ^ 16 + 2 ^ 16 * (toUInt32 tmp2 % 2 ^ 16) := by
    rw [Nat.lor_comm, ← Nat.mul_add_lt_is_or hlt16', Nat.add_comm]
  have hw : toUInt32 tmp % 2 ^ 16 + 2 ^ 16 * (toUInt32 tmp2 % 2 ^ 16) < 2 ^ 32 := by omega
  have hall : ∀ w : Nat, w < 2 ^ 32 → w &&& select_all_code_bits = w := fun w hw' =>
    Nat.and_pow_two_sub_one_of_lt_two_pow (n := 32) hw'
  unfold packed_word
  simp only [hlo, hshift, and_select_msbits _ hlt16, hor]
  rw [toUInt32_toInt32 _ hw, hall _ hw, toUInt32_toInt32 _ hw]

/-- C10: with the header constants (16-bit lanes, masks `0x0000FFFF` and
`0xFFFF0000`, shift factor `65536`), for quantised integers `re`, `im` in
`[-2^15, 2^15)` the stored 32-bit word holds `re` in its low and `im` in its
high 16 bits as two's-complement values: sign-extending each lane recovers
`(re, im)`, and each lane depends on its own component only. -/
theorem packed_word_round_trip (re im : Int)
    (hre : -2 ^ 15 ≤ re ∧ re < 2 ^ 15) (him : -2 ^ 15 ≤ im ∧ im < 2 ^ 15) :
    packed_word re im < 2 ^ 32
      ∧ signExtend16 (lowLane (packed_word re im)) = re
      ∧ signExtend16 (highLane (packed_word re im)) = im
      ∧ lowLane (packed_word re im) = toUInt32 re % 2 ^ 16
      ∧ highLane (packed_word re im) = toUInt32 im % 2 ^ 16 := by
  obtain ⟨hre0, hre1⟩ := hre
  obtain ⟨him0, him1⟩ := him
  rw [packed_word_eq]
  have hlo : lowLane (toUInt32 re % 2 ^ 16 + 2 ^ 16 * (toUInt32 im % 2 ^ 16))
      = toUInt32 re % 2 ^ 16 := by
    unfold lowLane
    omega
  have hhi : highLane (toUInt32 re % 2 ^ 16 + 2 ^ 16 * (toUInt32 im % 2 ^ 16))
      = toUInt32 im % 2 ^ 16 := by
    unfold highLane
    omega
  rw [hlo, hhi]
  refine ⟨by omega, ?_, ?_, rfl, rfl⟩
  · unfold signExtend16 toUInt32
    split <;> omega
  · unfold signExtend16 toUInt32
    split <;> omega

/-- Witness for C10 at `re = -1`, `im = 2`: the word is `0x0002FFFF`. -/
theorem packed_word_round_trip_witness :
    ((-2 ^ 15 ≤ (-1 : Int) ∧ (-1 : Int) < 2 ^ 15) ∧ (-2 ^ 15 ≤ (2 : Int) ∧ (2 : Int) < 2 ^ 15))
      ∧ packed_word (-1) 2 = 0x0002FFFF
      ∧ signExtend16 (lowLane (packed_word (-1) 2)) = -1
      ∧ signExtend16 (highLane (packed_word (-1) 2)) = 2 :=
  ⟨⟨by decide, by decide⟩, by decide,
    (packed_word_round_trip (-1) 2 (by decide) (by decide)).2.1,
    (packed_word_round_trip (-1) 2 (by decide) (by decide)).2.2.1⟩

/-! ## FPGA acquisition adapter: reference code table -/

/-- The table a completed construction leaves has `all_fft_codes_size` words
for the FFT length it passes to the engine. -/
lemma constructed_table_size (configuration : ConfigurationInterface) (device_found : Bool)
    (fft_plan_made : Nat → Bool) (adapter : AcquisitionAdapter)
    (h : GpsL5iPcpsAcquisitionFpga configuration device_found fft_plan_made
      = Construction.engine_created adapter) :
    adapter.d_all_fft_codes_size = all_fft_codes_size adapter.acq_parameters.samples_per_code := by
  unfold GpsL5iPcpsAcquisitionFpga at h
  generalize configured_fs_in configuration = fs at h
  simp only at h
  split at h
  · exact Construction.noConfusion h
  · split at h
    · exact Construction.noConfusion h
    · split at h
      · exact Construction.noConfusion h
      · split at h
        · exact Construction.noConfusion h
        · split at h
          · exact Construction.noConfusion h
          · split at h
            · exact Construction.noConfusion h
            · injection h with h
              subst h
              rfl

/-- Without wrap-around the slot of bin `i` of satellite `PRN` is
`i + N * (PRN - 1)`. -/
lemma fft_code_slot_eq (N PRN i : Nat) (hN : N * NUM_PRNs < 2 ^ 32) (h1 : 1 ≤ PRN)
    (h2 : PRN ≤ NUM_PRNs) (hi : i < N) :
    fft_code_slot N PRN i = i + N * (PRN - 1) ∧ i + N * (PRN - 1) < N * NUM_PRNs := by
  have hP : toUInt32 ((PRN : Int) - 1) = PRN - 1 := by
    unfold toUInt32
    unfold NUM_PRNs at h2
    omega
  have hle : N * (PRN - 1) + N ≤ N * NUM_PRNs := by
    calc N * (PRN - 1) + N = N * (PRN - 1 + 1) := by ring
      _ = N * PRN := by rw [Nat.sub_add_cancel h1]
      _ ≤ N * NUM_PRNs := Nat.mul_le_mul_left N h2
  have hlt : i + N * (PRN - 1) < N * NUM_PRNs := by omega
  refine ⟨?_, hlt⟩
  unfold fft_code_slot
  rw [hP, Nat.mod_eq_of_lt (by omega), Nat.mod_eq_of_lt (by omega)]

/-- C11, counterexample: the code length `2^27` (sample rate `134217728000`)
gives the FFT length `N = 2^28`. The 32-bit product `N * (17 - 1)` wraps to
`0`, so bin 0 of satellite 17 is written to slot 0, the slot of bin 0 of
satellite 1; and the 32-bit size `N * NUM_PRNs` wraps to `0`, so no slot is
in bounds. -/
theorem fft_code_slot_wraps :
    nsamples_total 134217728 = some 268435456
      ∧ fft_code_slot 268435456 17 0 = fft_code_slot 268435456 1 0
      ∧ all_fft_codes_size 268435456 = 0
      ∧ ¬ (fft_code_slot 268435456 1 0 < all_fft_codes_size 268435456) := by
  refine ⟨?_, by decide, by decide, by decide⟩
  rw [nsamples_total_of_clog 134217728 28 (by decide) (Nat.clog_pow 2 28 (by decide))]
  decide

/-- C11 (amended): for an FFT length `N` with `N * NUM_PRNs < 2^32` the table
has exactly `N * NUM_PRNs` words; the slot `i + N * (PRN - 1)` of bin `i < N` of
satellite `PRN` in `1..NUM_PRNs` is in bounds, lies in the block
`[N * (PRN - 1), N * PRN)`, differs for different pairs `(PRN, i)`, every slot
of the table is the slot of one pair, and every slot of the block of `PRN` is
the slot of one of its bins. -/
theorem fft_code_slot_layout (N : Nat) (hN : N * NUM_PRNs < 2 ^ 32) :
    all_fft_codes_size N = N * NUM_PRNs
      ∧ (∀ PRN i : Nat, 1 ≤ PRN → PRN ≤ NUM_PRNs → i < N →
          fft_code_slot N PRN i = i + N * (PRN - 1)
            ∧ fft_code_slot N PRN i < all_fft_codes_size N
            ∧ N * (PRN - 1) ≤ fft_code_slot N PRN i
            ∧ fft_code_slot N PRN i < N * PRN)
      ∧ (∀ PRN i PRN' i' : Nat, 1 ≤ PRN → PRN ≤ NUM_PRNs → i < N →
          1 ≤ PRN' → PRN' ≤ NUM_PRNs → i' < N →
          fft_code_slot N PRN i = fft_code_slot N PRN' i' → PRN = PRN' ∧ i = i')
      ∧ (∀ j : Nat, j < all_fft_codes_size N →
          ∃ PRN i : Nat, 1 ≤ PRN ∧ PRN ≤ NUM_PRNs ∧ i < N ∧ fft_code_slot N PRN i = j)
      ∧ (∀ PRN j : Nat, 1 ≤ PRN → PRN ≤ NUM_PRNs → N * (PRN - 1) ≤ j → j < N * PRN →
          ∃ i : Nat, i < N ∧ fft_code_slot N PRN i = j) := by
  have hsize : all_fft_codes_size N = N * NUM_PRNs := by
    unfold all_fft_codes_size
    exact Nat.mod_eq_of_lt hN
  refine ⟨hsize, ?_, ?_, ?_, ?_⟩
  · intro PRN i h1 h2 hi
    obtain ⟨he, hlt⟩ := fft_code_slot_eq N PRN i hN h1 h2 hi
    have hblock : i + N * (PRN - 1) < N * PRN := by
      calc i + N * (PRN - 1) < N + N * (PRN - 1) := by omega
        _ = N * (PRN - 1 + 1) := by ring
        _ = N * PRN := by rw [Nat.sub_add_cancel h1]
    rw [he, hsize]
    exact ⟨rfl, hlt, by omega, hblock⟩
  · intro PRN i PRN' i' h1 h2 hi h1' h2' hi' h
    rw [(fft_code_slot_eq N PRN i hN h1 h2 hi).1,
      (fft_code_slot_eq N PRN' i' hN h1' h2' hi').1] at h
    have hpos : 0 < N := by omega
    have hd : (i + N * (PRN - 1)) / N = (i' + N * (PRN' - 1)) / N := by rw [h]
    have hm : (i + N * (PRN - 1)) % N = (i' + N * (PRN' - 1)) % N := by rw [h]
    rw [Nat.add_mul_div_left _ _ hpos, Nat.add_mul_div_left _ _ hpos,
      Nat.div_eq_of_lt hi, Nat.div_eq_of_lt hi'] at hd
    rw [Nat.add_mul_mod_self_left, Nat.add_mul_mod_self_left,
      Nat.mod_eq_of_lt hi, Nat.mod_eq_of_lt hi'] at hm
    exact ⟨by omega, hm⟩
  · intro j hj
    rw [hsize] at hj
    have hpos : 0 < N := by
      rcases Nat.eq_zero_or_pos N with h0 | h0
      · rw [h0, Nat.zero_mul] at hj
        exact absurd hj (Nat.not_lt_zero _)
      · exact h0
    have hq : j / N < NUM_PRNs := by
      rw [Nat.div_lt_iff_lt_mul hpos, Nat.mul_comm]
      exact hj
    have hr : j % N < N := Nat.mod_lt _ hpos
    have h1q : 1 ≤ j / N + 1 := Nat.succ_le_succ (Nat.zero_le _)
    have h2q : j / N + 1 ≤ NUM_PRNs := Nat.succ_le_of_lt hq
    refine ⟨j / N + 1, j % N, h1q, h2q, hr, ?_⟩
    rw [(fft_code_slot_eq N (j / N + 1) (j % N) hN h1q h2q hr).1,
      Nat.add_sub_cancel, Nat.add_comm]
    exact Nat.div_add_mod j N
  · intro PRN j h1 h2 hlo hhi
    have hblock : N * PRN = N * (PRN - 1) + N := by
      calc N * PRN = N * (PRN - 1 + 1) := by rw [Nat.sub_add_cancel h1]
        _ = N * (PRN - 1) + N := by ring
    have hi : j - N * (PRN - 1) < N := by omega
    refine ⟨j - N * (PRN - 1), hi, ?_⟩
    rw [(fft_code_slot_eq N PRN _ hN h1 h2 hi).1]
    omega

/-- Witness for C11 (amended) at the default FFT length `4096`: the table has
`131072` words and bin 5 of satellite 3 is stored at slot `8197`. -/
theorem fft_code_slot_layout_witness :
    4096 * NUM_PRNs < 2 ^ 32
      ∧ all_fft_codes_size 4096 = 4096 * NUM_PRNs
      ∧ fft_code_slot 4096 3 5 = 5 + 4096 * (3 - 1) :=
  ⟨by decide, (fft_code_slot_layout 4096 (by decide)).1,
    ((fft_code_slot_layout 4096 (by decide)).2.1 3 5 (by decide) (by decide) (by decide)).1⟩

/-! ## Correlator bank: determinism -/

/-- The tap samples handed to the dot-product kernel after the local code was
resampled depend on the bound code, the shifts, the tap count and the
arguments only, not on what the tap buffers held before. -/
lemma resampled_view_eq {S F C : Type} (k : Kernels S F C)
    (c c' : Cpu_Multicorrelator_16sc S F) (len : Nat) (rem step : F)
    (hcode : c'.d_local_code_in = c.d_local_code_in)
    (hshift : c'.d_shifts_chips = c.d_shifts_chips)
    (hlen : c'.d_code_length_chips = c.d_code_length_chips)
    (hn : c'.d_n_correlators = c.d_n_correlators) :
    (List.range (c'.update_local_code k len rem step).d_n_correlators).map
        (fun n => (List.range len).map
          ((c'.update_local_code k len rem step).d_local_codes_resampled n))
      = (List.range (c.update_local_code k len rem step).d_n_correlators).map
        (fun n => (List.range len).map
          ((c.update_local_code k len rem step).d_local_codes_resampled n)) := by
  simp only [Cpu_Multicorrelator_16sc.update_local_code, hcode, hshift, hlen, hn]
  apply List.map_congr_left
  intro n hnmem
  apply List.map_congr_left
  intro i himem
  rw [if_pos ⟨List.mem_range.mp hnmem, List.mem_range.mp himem⟩,
    if_pos ⟨List.mem_range.mp hnmem, List.mem_range.mp himem⟩]

/-- The output slot `n` after a call: the dot-product kernel's value for a tap
below the tap count, the old value otherwise. -/
lemma wipeoff_corr_out {S F C : Type} (k : Kernels S F C) (c : Cpu_Multicorrelator_16sc S F)
    (rem_carrier phase_step rem_code code_step : F) (len n : Nat) :
    (c.Carrier_wipeoff_multicorrelator_resampler k rem_carrier phase_step rem_code code_step
        len).d_corr_out n
      = if n < c.d_n_correlators then
          k.rotator_dot_prod c.d_sig_in (k.phase_increment phase_step)
            (k.phase_offset rem_carrier)
            ((List.range (c.update_local_code k len rem_code code_step).d_n_correlators).map
              (fun n => (List.range len).map
                ((c.update_local_code k len rem_code code_step).d_local_codes_resampled n)))
            c.d_n_correlators len n
        else c.d_corr_out n :=
  rfl

/-- The tap sample `(n, i)` after a call: the resampler kernel's value inside
the resampled region, the old value otherwise. -/
lemma wipeoff_taps {S F C : Type} (k : Kernels S F C) (c : Cpu_Multicorrelator_16sc S F)
    (rem_carrier phase_step rem_code code_step : F) (len n i : Nat) :
    (c.Carrier_wipeoff_multicorrelator_resampler k rem_carrier phase_step rem_code code_step
        len).d_local_codes_resampled n i
      = if n < c.d_n_correlators ∧ i < len then
          k.resampler c.d_local_code_in rem_code code_step c.d_shifts_chips
            c.d_code_length_chips c.d_n_correlators len n i
        else c.d_local_codes_resampled n i :=
  rfl

/-- The correlator outputs of the taps and the resampled samples do not depend
on what the tap buffers and the output slots held before the call. -/
lemma wipeoff_independent {S F C : Type} (k : Kernels S F C)
    (c c' : Cpu_Multicorrelator_16sc S F)
    (rem_carrier phase_step rem_code code_step : F) (len : Nat)
    (hsig : c'.d_sig_in = c.d_sig_in) (hcode : c'.d_local_code_in = c.d_local_code_in)
    (hshift : c'.d_shifts_chips = c.d_shifts_chips)
    (hlen : c'.d_code_length_chips = c.d_code_length_chips)
    (hn : c'.d_n_correlators = c.d_n_correlators) (n : Nat) (hnlt : n < c.d_n_correlators) :
    (c'.Carrier_wipeoff_multicorrelator_resampler k rem_carrier phase_step rem_code code_step
        len).d_corr_out n
      = (c.Carrier_wipeoff_multicorrelator_resampler k rem_carrier phase_step rem_code
          code_step len).d_corr_out n
    ∧ ∀ i : Nat, i < len →
        (c'.Carrier_wipeoff_multicorrelator_resampler k rem_carrier phase_step rem_code
            code_step len).d_local_codes_resampled n i
          = (c.Carrier_wipeoff_multicorrelator_resampler k rem_carrier phase_step rem_code
              code_step len).d_local_codes_resampled n i := by
  constructor
  · rw [wipeoff_corr_out, wipeoff_corr_out,
      resampled_view_eq k c c' len rem_code code_step hcode hshift hlen hn, hn, hsig,
      if_pos hnlt, if_pos hnlt]
  · intro i hi
    rw [wipeoff_taps, wipeoff_taps, hn, hcode, hshift, hlen, if_pos ⟨hnlt, hi⟩,
      if_pos ⟨hnlt, hi⟩]

/-- C12: with the kernels as functions of their arguments, a second call of
`Carrier_wipeoff_multicorrelator_resampler` with the same arguments leaves the
whole object (correlator outputs and tap buffers included) as the first call
left it; and the correlator outputs and the resampled samples that a call
produces are the same from any two objects that agree on the bound code, the
tap shifts, the code length, the tap count and the input samples, whatever
their tap buffers and output slots held before. -/
theorem wipeoff_idempotent_and_independent {S F C : Type} (k : Kernels S F C)
    (c : Cpu_Multicorrelator_16sc S F)
    (rem_carrier_phase_in_rad phase_step_rad rem_code_phase_chips code_phase_step_chips : F)
    (signal_length_samples : Nat) :
    (c.Carrier_wipeoff_multicorrelator_resampler k rem_carrier_phase_in_rad phase_step_rad
        rem_code_phase_chips code_phase_step_chips
        signal_length_samples).Carrier_wipeoff_multicorrelator_resampler k
        rem_carrier_phase_in_rad phase_step_rad rem_code_phase_chips code_phase_step_chips
        signal_length_samples
      = c.Carrier_wipeoff_multicorrelator_resampler k rem_carrier_phase_in_rad phase_step_rad
          rem_code_phase_chips code_phase_step_chips signal_length_samples
    ∧ ∀ c' : Cpu_Multicorrelator_16sc S F,
        c'.d_sig_in = c.d_sig_in → c'.d_local_code_in = c.d_local_code_in →
        c'.d_shifts_chips = c.d_shifts_chips →
        c'.d_code_length_chips = c.d_code_length_chips →
        c'.d_n_correlators = c.d_n_correlators →
        ∀ n : Nat, n < c.d_n_correlators →
          (c'.Carrier_wipeoff_multicorrelator_resampler k rem_carrier_phase_in_rad
              phase_step_rad rem_code_phase_chips code_phase_step_chips
              signal_length_samples).d_corr_out n
            = (c.Carrier_wipeoff_multicorrelator_resampler k rem_carrier_phase_in_rad
                phase_step_rad rem_code_phase_chips code_phase_step_chips
                signal_length_samples).d_corr_out n
          ∧ ∀ i : Nat, i < signal_length_samples →
              (c'.Carrier_wipeoff_multicorrelator_resampler k rem_carrier_phase_in_rad
                  phase_step_rad rem_code_phase_chips code_phase_step_chips
                  signal_length_samples).d_local_codes_resampled n i
                = (c.Carrier_wipeoff_multicorrelator_resampler k rem_carrier_phase_in_rad
                    phase_step_rad rem_code_phase_chips code_phase_step_chips
                    signal_length_samples).d_local_codes_resampled n i := by
  constructor
  · ext n
    · rfl
    · rename_i i
      rw [wipeoff_taps, wipeoff_taps]
      by_cases h : n < c.d_n_correlators ∧ i < signal_length_samples
      · rw [if_pos h]
        exact if_pos h
      · rw [if_neg h]
        exact if_neg h
    · rfl
    · by_cases h : n < c.d_n_correlators
      · exact (wipeoff_independent k c
          (c.Carrier_wipeoff_multicorrelator_resampler k rem_carrier_phase_in_rad
            phase_step_rad rem_code_phase_chips code_phase_step_chips signal_length_samples)
          rem_carrier_phase_in_rad phase_step_rad
          rem_code_phase_chips code_phase_step_chips signal_length_samples rfl rfl rfl rfl rfl
          n h).1
      · rw [wipeoff_corr_out]
        exact if_neg h
    · rfl
    · rfl
    · rfl
  · intro c' hsig hcode hshift hlen hn n hnlt
    exact wipeoff_independent k c c' rem_carrier_phase_in_rad phase_step_rad
      rem_code_phase_chips code_phase_step_chips signal_length_samples hsig hcode hshift hlen
      hn n hnlt

/-! ## Correlator bank: tap buffer allocation -/

/-- The loop of `init` allocates the next `count` blocks, in order. -/
lemma allocate_taps_eq (count : Nat) :
    ∀ heap : Allocator,
      allocate_taps count heap
        = (List.range' heap.next_block count,
            { next_block := heap.next_block + count
              live := heap.live ++ List.range' heap.next_block count
              released := heap.released }) := by
  induction count with
  | zero =>
    intro heap
    simp [allocate_taps]
  | succ count ih =>
    intro heap
    rw [allocate_taps]
    simp only [volk_gnsssdr_malloc, ih, List.range'_succ, List.append_assoc,
      List.singleton_append]
    refine Prod.ext rfl ?_
    simp only [Allocator.mk.injEq]
    exact ⟨by omega, trivial, trivial⟩

/-- Releasing the blocks of a list one after the other removes them from the
live blocks and appends them to the releases. -/
lemma foldl_free_eq (bs : List Nat) :
    ∀ heap : Allocator,
      bs.foldl volk_gnsssdr_free heap
        = { next_block := heap.next_block
            live := heap.live.filter (fun x => x ∉ bs)
            released := heap.released ++ bs } := by
  induction bs with
  | nil =>
    intro heap
    simp
  | cons b rest ih =>
    intro heap
    rw [List.foldl_cons, ih]
    simp only [volk_gnsssdr_free, List.filter_filter, List.append_assoc, List.singleton_append,
      Allocator.mk.injEq, true_and, and_true]
    apply List.filter_congr
    intro x _
    simp only [List.mem_cons, not_or, Bool.decide_and, Bool.and_comm]

/-- The state after `init` on any instance: the table is the next block, the
taps are the `n_correlators` blocks after it, and nothing is released. -/
lemma init_eq (c : TapBuffers) (heap : Allocator) (len n : Nat) :
    c.init heap len n
      = ({ d_n_correlators := n
           d_local_codes_resampled :=
             some (heap.next_block, List.range' (heap.next_block + 1) n) },
          { next_block := heap.next_block + 1 + n
            live := heap.live ++ List.range' heap.next_block (n + 1)
            released := heap.released }) := by
  simp only [TapBuffers.init, volk_gnsssdr_malloc, allocate_taps_eq, List.range'_succ,
    List.append_assoc, List.singleton_append]

/-- The state after `free` on an instance that `init` left: the taps and then
the table are released and the pointer is null. -/
lemma free_after_init_eq (heap : Allocator) (table n : Nat) :
    TapBuffers.free
        { d_n_correlators := n
          d_local_codes_resampled := some (table, List.range' (table + 1) n) } heap
      = ({ d_n_correlators := n, d_local_codes_resampled := none },
          { next_block := heap.next_block
            live := heap.live.filter (fun x => x ∉ List.range' table (n + 1))
            released := heap.released ++ List.range' (table + 1) n ++ [table] }) := by
  have htake : (List.range' (table + 1) n).take n = List.range' (table + 1) n :=
    List.take_of_length_le (by simp)
  simp only [TapBuffers.free, htake, foldl_free_eq, volk_gnsssdr_free, List.filter_filter,
    Prod.mk.injEq, Allocator.mk.injEq, true_and, and_true]
  apply List.filter_congr
  intro x _
  simp only [List.mem_range'_1, decide_not, Bool.and_eq_true, Bool.not_eq_true',
    decide_eq_false_iff_not, decide_eq_true_eq]
  by_cases h1 : x = table <;> by_cases h2 : table + 1 ≤ x ∧ x < table + 1 + n <;>
    simp [h1, h2] <;> omega

/-- C13: `init` overwrites the pointer without releasing what it referred to.
At the calls `init(4, 2); init(4, 3); free()` on a new instance the table and
the two taps of the first `init` (blocks 0, 1, 2) stay allocated and are never
released; the same holds for any two `init` calls in a row, which leak the
`n1 + 1` blocks of the first one. What the claim says of `free` holds: after
it the pointer is null, and a further `free` or the destructor releases
nothing; and one `init` followed by `free` releases each of its blocks exactly
once. -/
theorem reinit_leaks_first_buffers :
    run_calls [Call.init 4 2, Call.init 4 3, Call.free] fresh_instance
        = ({ d_n_correlators := 3, d_local_codes_resampled := none },
            { next_block := 7, live := [0, 1, 2], released := [4, 5, 6, 3] })
      ∧ (∀ len1 n1 len2 n2 : Nat,
          (run_calls [Call.init len1 n1, Call.init len2 n2, Call.free] fresh_instance).2.live
              = List.range' 0 (n1 + 1)
            ∧ (run_calls [Call.init len1 n1, Call.init len2 n2, Call.free]
                fresh_instance).2.released = List.range' (n1 + 2) n2 ++ [n1 + 1])
      ∧ (∀ (c : TapBuffers) (heap : Allocator),
          (c.free heap).1.d_local_codes_resampled = none
            ∧ (c.free heap).1.free (c.free heap).2 = c.free heap
            ∧ (c.free heap).1.destructor (c.free heap).2 = c.free heap)
      ∧ (∀ len n : Nat,
          (run_calls [Call.init len n, Call.free] fresh_instance).2.live = []
            ∧ (run_calls [Call.init len n, Call.free] fresh_instance).2.released
              = List.range' 1 n ++ [0]) := by
  refine ⟨by decide, ?_, ?_, ?_⟩
  · intro len1 n1 len2 n2
    simp only [run_calls, fresh_instance, init_eq, free_after_init_eq, List.nil_append,
      Nat.zero_add]
    constructor
    · rw [List.filter_append, List.filter_eq_self.mpr, List.filter_eq_nil_iff.mpr,
        List.append_nil]
      · intro x hx
        simp only [List.mem_range'_1] at hx
        simp only [List.mem_range'_1, decide_not, Bool.not_eq_true', decide_eq_false_iff_not,
          not_not]
        omega
      · intro x hx
        simp only [List.mem_range'_1] at hx
        simp only [List.mem_range'_1, decide_not, Bool.not_eq_true', decide_eq_false_iff_not]
        omega
    · have e : 1 + n1 + 1 = n1 + 2 := by omega
      have e' : 1 + n1 = n1 + 1 := by omega
      rw [e, e']
  · intro c heap
    cases hp : c.d_local_codes_resampled with
    | none =>
      simp [TapBuffers.free, TapBuffers.destructor, hp]
    | some p =>
      obtain ⟨table, taps⟩ := p
      simp [TapBuffers.free, TapBuffers.destructor, hp]
  · intro len n
    simp only [run_calls, fresh_instance, init_eq, free_after_init_eq, List.nil_append,
      Nat.zero_add]
    refine ⟨?_, trivial⟩
    rw [List.filter_eq_nil_iff]
    intro x hx
    simp only [decide_not, Bool.not_eq_true', decide_eq_false_iff_not, not_not]
    exact hx

/-! ## FPGA acquisition adapter: quantisation of the code spectrum -/

/-- The maxima search never lowers `max`, and after a bin was visited `max`
is at least the magnitude of both of its components. -/
lemma max_search_foldl_bound {K : Type} [LinearOrderedField K] (bins : List (K × K)) :
    ∀ start : K,
      start ≤ bins.foldl
          (fun max bin =>
            let max_re := if |bin.1| > max then |bin.1| else max
            if |bin.2| > max_re then |bin.2| else max_re)
          start
        ∧ ∀ bin ∈ bins,
            |bin.1| ≤ bins.foldl
                (fun max bin =>
                  let max_re := if |bin.1| > max then |bin.1| else max
                  if |bin.2| > max_re then |bin.2| else max_re)
                start
              ∧ |bin.2| ≤ bins.foldl
                (fun max bin =>
                  let max_re := if |bin.1| > max then |bin.1| else max
                  if |bin.2| > max_re then |bin.2| else max_re)
                start := by
  induction bins with
  | nil =>
    intro start
    exact ⟨le_refl _, fun bin h => absurd h (List.not_mem_nil _)⟩
  | cons b rest ih =>
    intro start
    rw [List.foldl_cons]
    obtain ⟨hge, hall⟩ := ih
      (let max_re := if |b.1| > start then |b.1| else start
       if |b.2| > max_re then |b.2| else max_re)
    have hstep : start ≤ (let max_re := if |b.1| > start then |b.1| else start
        if |b.2| > max_re then |b.2| else max_re)
        ∧ |b.1| ≤ (let max_re := if |b.1| > start then |b.1| else start
        if |b.2| > max_re then |b.2| else max_re)
        ∧ |b.2| ≤ (let max_re := if |b.1| > start then |b.1| else start
        if |b.2| > max_re then |b.2| else max_re) := by
      simp only
      split_ifs with h1 h2 h2
      · exact ⟨by linarith, by linarith, le_refl _⟩
      · exact ⟨by linarith, le_refl _, by linarith⟩
      · exact ⟨by linarith, by linarith, le_refl _⟩
      · exact ⟨le_refl _, by linarith, by linarith⟩
    refine ⟨hstep.1.trans hge, ?_⟩
    intro bin hbin
    rcases List.mem_cons.mp hbin with rfl | hmem
    · exact ⟨hstep.2.1.trans hge, hstep.2.2.trans hge⟩
    · exact hall bin hmem

/-- Every component of every bin is bounded in magnitude by the result of the
maxima search. -/
lemma abs_le_max_search {K : Type} [LinearOrderedField K] (bins : List (K × K))
    (bin : K × K) (h : bin ∈ bins) :
    |bin.1| ≤ max_search bins ∧ |bin.2| ≤ max_search bins :=
  (max_search_foldl_bound bins 0).2 bin h

/-- A component bounded by `max > 0` is quantised to an integer of magnitude at
most `2^(q-1) - 1`, and the conversion to `int32_t` is defined. -/
lemma quantise_bound {K : Type} [LinearOrderedField K] [FloorRing K] (v max : K)
    (hmax : 0 < max) (hv : |v| ≤ max) :
    ∃ t : Int, quantise v max = some t
      ∧ -(2 ^ (quant_bits_local_code - 1) - 1) ≤ t
      ∧ t ≤ 2 ^ (quant_bits_local_code - 1) - 1 := by
  have hq : quant_bits_local_code - 1 = 15 := by decide
  rw [hq]
  obtain ⟨hlo, hhi⟩ := abs_le.mp hv
  have hM : (0 : K) ≤ 2 ^ 15 - 1 := by norm_num
  have h1 : v * (2 ^ 15 - 1) / max ≤ 2 ^ 15 - 1 := by
    rw [div_le_iff₀ hmax]
    nlinarith
  have h2 : -(2 ^ 15 - 1) ≤ v * (2 ^ 15 - 1) / max := by
    rw [le_div_iff₀ hmax]
    nlinarith
  have hfl : ⌊v * (2 ^ 15 - 1) / max⌋ ≤ 2 ^ 15 - 1 := by
    have h := (Int.floor_le (v * (2 ^ 15 - 1) / max)).trans h1
    have h' : ((⌊v * (2 ^ 15 - 1) / max⌋ : Int) : K) ≤ ((2 ^ 15 - 1 : Int) : K) := by
      push_cast
      linarith
    exact Int.cast_le.mp h'
  have hfl2 : -(2 ^ 15 - 1) ≤ ⌊v * (2 ^ 15 - 1) / max⌋ := by
    rw [Int.le_floor]
    push_cast
    linarith
  refine ⟨⌊v * (2 ^ 15 - 1) / max⌋, ?_, hfl2, hfl⟩
  unfold quantise double_to_int32
  rw [hq, if_pos ⟨by omega, by omega⟩]

/-- Two integers of `[-2^15, 2^15)` are read back from the lanes of the word
they are packed into. -/
lemma packed_word_lanes (re im : Int) (hre : -2 ^ 15 ≤ re ∧ re < 2 ^ 15)
    (him : -2 ^ 15 ≤ im ∧ im < 2 ^ 15) :
    signExtend16 (lowLane (packed_word re im)) = re
      ∧ signExtend16 (highLane (packed_word re im)) = im := by
  obtain ⟨hre0, hre1⟩ := hre
  obtain ⟨him0, him1⟩ := him
  rw [packed_word_eq]
  have hlo : lowLane (toUInt32 re % 2 ^ 16 + 2 ^ 16 * (toUInt32 im % 2 ^ 16))
      = toUInt32 re % 2 ^ 16 := by
    unfold lowLane
    omega
  have hhi : highLane (toUInt32 re % 2 ^ 16 + 2 ^ 16 * (toUInt32 im % 2 ^ 16))
      = toUInt32 im % 2 ^ 16 := by
    unfold highLane
    omega
  rw [hlo, hhi]
  constructor
  · unfold signExtend16 toUInt32
    split <;> omega
  · unfold signExtend16 toUInt32
    split <;> omega

/-- C14: for a conjugated code spectrum whose maxima search ends with
`max > 0`, both components of every bin are quantised to integers of
`[-(2^(q-1) - 1), 2^(q-1) - 1]` with `q = quant_bits_local_code`; the
conversions to `int32_t` are defined, and the lanes of the packed word give the
two integers back, so the masks discard no significant bit. -/
theorem quantised_spectrum_fits_lane {K : Type} [LinearOrderedField K] [FloorRing K]
    (fft_codes_padded : List (K × K)) (hmax : 0 < max_search fft_codes_padded)
    (bin : K × K) (hbin : bin ∈ fft_codes_padded) :
    ∃ tmp tmp2 : Int,
      quantise bin.1 (max_search fft_codes_padded) = some tmp
        ∧ quantise bin.2 (max_search fft_codes_padded) = some tmp2
        ∧ (-(2 ^ (quant_bits_local_code - 1) - 1) ≤ tmp
            ∧ tmp ≤ 2 ^ (quant_bits_local_code - 1) - 1)
        ∧ (-(2 ^ (quant_bits_local_code - 1) - 1) ≤ tmp2
            ∧ tmp2 ≤ 2 ^ (quant_bits_local_code - 1) - 1)
        ∧ signExtend16 (lowLane (packed_word tmp tmp2)) = tmp
        ∧ signExtend16 (highLane (packed_word tmp tmp2)) = tmp2 := by
  obtain ⟨hre, him⟩ := abs_le_max_search fft_codes_padded bin hbin
  obtain ⟨tmp, h1, h1lo, h1hi⟩ := quantise_bound bin.1 _ hmax hre
  obtain ⟨tmp2, h2, h2lo, h2hi⟩ := quantise_bound bin.2 _ hmax him
  have hq : quant_bits_local_code - 1 = 15 := by decide
  have hl := packed_word_lanes tmp tmp2
    (by rw [hq] at h1lo h1hi; constructor <;> omega)
    (by rw [hq] at h2lo h2hi; constructor <;> omega)
  exact ⟨tmp, tmp2, h1, h2, ⟨h1lo, h1hi⟩, ⟨h2lo, h2hi⟩, hl.1, hl.2⟩

/-- The maxima search over the two bins `(3, -4)` and `(1, 2)` ends with `4`. -/
lemma max_search_example : max_search [((3 : ℚ), (-4 : ℚ)), (1, 2)] = 4 := by
  norm_num [max_search, abs_of_nonneg, abs_of_neg]

/-- Witness for C14 at the spectrum `[(3, -4), (1, 2)]` with `max = 4`: the
bin `(3, -4)` is quantised to integers that the lanes give back. -/
theorem quantised_spectrum_fits_lane_witness :
    0 < max_search [((3 : ℚ), (-4 : ℚ)), (1, 2)]
      ∧ ((3 : ℚ), (-4 : ℚ)) ∈ [((3 : ℚ), (-4 : ℚ)), (1, 2)]
      ∧ ∃ tmp tmp2 : Int,
          quantise (3 : ℚ) (max_search [((3 : ℚ), (-4 : ℚ)), (1, 2)]) = some tmp
            ∧ quantise (-4 : ℚ) (max_search [((3 : ℚ), (-4 : ℚ)), (1, 2)]) = some tmp2
            ∧ signExtend16 (lowLane (packed_word tmp tmp2)) = tmp
            ∧ signExtend16 (highLane (packed_word tmp tmp2)) = tmp2 := by
  have hpos : 0 < max_search [((3 : ℚ), (-4 : ℚ)), (1, 2)] := by
    rw [max_search_example]; norm_num
  have hmem : ((3 : ℚ), (-4 : ℚ)) ∈ [((3 : ℚ), (-4 : ℚ)), (1, 2)] := List.mem_cons_self _ _
  obtain ⟨tmp, tmp2, h1, h2, -, -, h5, h6⟩ :=
    quantised_spectrum_fits_lane [((3 : ℚ), (-4 : ℚ)), (1, 2)] hpos (3, -4) hmem
  exact ⟨hpos, hmem, tmp, tmp2, h1, h2, h5, h6⟩

/-! ## FPGA acquisition adapter: padding of the reference code -/

/-- The copy loop started at `s` with `count` iterations stays inside the
buffer when `s + count` does, and copies `code[i - L]` to every `i` it visits,
provided that it reads below `L` only (`s + count <= 2 * L`). -/
lemma copy_loop_spec {S : Type} (L : Nat) :
    ∀ (count s : Nat) (code : List S), L ≤ s → s + count ≤ code.length → s + count ≤ 2 * L →
      ∃ out : List S, copy_loop L count s code = some out
        ∧ out.length = code.length
        ∧ ∀ i : Nat, out[i]? = if s ≤ i ∧ i < s + count then code[i - L]? else code[i]? := by
  intro count
  induction count with
  | zero =>
    intro s code _ _ _
    refine ⟨code, rfl, rfl, fun i => ?_⟩
    rw [if_neg (by omega)]
  | succ count ih =>
    intro s code hs hlen h2
    have hread : s - L < code.length := by omega
    have hwrite : s < code.length := by omega
    obtain ⟨out, hout, hol, hget⟩ := ih (s + 1) (code.set s code[s - L])
      (by omega) (by rw [List.length_set]; omega) (by omega)
    refine ⟨out, ?_, by rw [hol, List.length_set], fun i => ?_⟩
    · rw [copy_loop, List.getElem?_eq_getElem hread]
      simp only [if_pos hwrite]
      exact hout
    · rw [hget i]
      by_cases hi : s + 1 ≤ i ∧ i < s + 1 + count
      · rw [if_pos hi, if_pos (by omega), List.getElem?_set_ne (by omega)]
      · rw [if_neg hi]
        by_cases hsi : s = i
        · subst hsi
          rw [if_pos (by omega), List.getElem?_set_self hwrite,
            List.getElem?_eq_getElem hread]
        · rw [if_neg (by omega), List.getElem?_set_ne hsi]

/-- The zero loop started at `s` with `count` iterations stays inside the
buffer when `s + count` does, and writes `0` to every index it visits. -/
lemma zero_loop_spec {S : Type} [Zero S] :
    ∀ (count s : Nat) (code : List S), s + count ≤ code.length →
      ∃ out : List S, zero_loop count s code = some out
        ∧ out.length = code.length
        ∧ ∀ i : Nat, out[i]? = if s ≤ i ∧ i < s + count then some 0 else code[i]? := by
  intro count
  induction count with
  | zero =>
    intro s code _
    refine ⟨code, rfl, rfl, fun i => ?_⟩
    rw [if_neg (by omega)]
  | succ count ih =>
    intro s code hlen
    have hwrite : s < code.length := by omega
    obtain ⟨out, hout, hol, hget⟩ := ih (s + 1) (code.set s 0)
      (by rw [List.length_set]; omega)
    refine ⟨out, ?_, by rw [hol, List.length_set], fun i => ?_⟩
    · rw [zero_loop, if_pos hwrite]
      exact hout
    · rw [hget i]
      by_cases hi : s + 1 ≤ i ∧ i < s + 1 + count
      · rw [if_pos hi, if_pos (by omega)]
      · rw [if_neg hi]
        by_cases hsi : s = i
        · subst hsi
          rw [if_pos (by omega), List.getElem?_set_self hwrite]
        · rw [if_neg (by omega), List.getElem?_set_ne hsi]

/-- An FFT length computed for a code length `L >= 1` is at least `2 * L` and
fits 32 bits. -/
lemma nsamples_total_ge_twice (L N : Nat) (h1 : 1 ≤ L) (hN : nsamples_total L = some N) :
    2 * L ≤ N ∧ N < 2 ^ 32 := by
  rw [nsamples_total_of_clog L _ (by omega) rfl] at hN
  unfold double_to_uint32 at hN
  split at hN
  · rename_i hr
    have hN' := Option.some.inj hN
    have hpow : ((2 : Int) ^ Nat.clog 2 (L * 2)).toNat = 2 ^ Nat.clog 2 (L * 2) := by
      exact_mod_cast Int.toNat_natCast (2 ^ Nat.clog 2 (L * 2))
    rw [hpow] at hN'
    have hle : L * 2 ≤ 2 ^ Nat.clog 2 (L * 2) := Nat.le_pow_clog (by decide) _
    have hlt : (2 : Nat) ^ Nat.clog 2 (L * 2) < 2 ^ 32 := by exact_mod_cast hr.2
    omega
  · exact Option.noConfusion hN

/-- C15: for a code length `L >= 1` with the FFT length `N` computed by the
adapter and the `N`-element buffer `code` as the code generator left it, the
two padding loops never read or write outside the buffer (`pad_code` has a
result), and afterwards the buffer still has `N` elements, holds the code
unchanged at `[0, L)`, its copy at `[L, 2L)` (`code[s] = code[s - L]`) and
zeros at `[2L, N)`. -/
theorem pad_code_in_bounds {S : Type} [Zero S] (L N : Nat) (code : List S) (h1 : 1 ≤ L)
    (hN : nsamples_total L = some N) (hlen : code.length = N) :
    ∃ padded : List S, pad_code L N code = some padded
      ∧ padded.length = N
      ∧ (∀ i : Nat, i < L → padded[i]? = code[i]?)
      ∧ (∀ s : Nat, L ≤ s → s < 2 * L → padded[s]? = code[s - L]?)
      ∧ (∀ s : Nat, 2 * L ≤ s → s < N → padded[s]? = some 0) := by
  obtain ⟨h2L, hN32⟩ := nsamples_total_ge_twice L N h1 hN
  have htwice : 2 * L % 2 ^ 32 = 2 * L := Nat.mod_eq_of_lt (by omega)
  obtain ⟨copied, hc, hcl, hcget⟩ := copy_loop_spec L (2 * L - L) L code (le_refl L)
    (by omega) (by omega)
  obtain ⟨padded, hz, hzl, hzget⟩ := zero_loop_spec (N - 2 * L) (2 * L) copied
    (by omega)
  refine ⟨padded, ?_, by omega, ?_, ?_, ?_⟩
  · unfold pad_code
    simp only [htwice, hc]
    exact hz
  · intro i hi
    rw [hzget i, if_neg (by omega), hcget i, if_neg (by omega)]
  · intro s hs1 hs2
    rw [hzget s, if_neg (by omega), hcget s, if_pos (by omega)]
  · intro s hs1 hs2
    rw [hzget s, if_pos (by omega)]

/-- The code length `3` gives the FFT length `8`. -/
lemma nsamples_total_three : nsamples_total 3 = some 8 := by
  have hc : Nat.clog 2 (3 * 2) = 3 :=
    le_antisymm ((Nat.le_pow_iff_clog_le (by decide)).mp (by decide))
      ((Nat.pow_lt_iff_lt_clog (by decide)).mp (by decide))
  rw [nsamples_total_of_clog 3 3 (by decide) hc]
  decide

/-- Witness for C15 at `L = 3`, `N = 8` and the buffer `[1, 2, 3, 9, 9, 9, 9, 9]`:
the padded buffer is `[1, 2, 3, 1, 2, 3, 0, 0]`. -/
theorem pad_code_in_bounds_witness :
    1 ≤ 3 ∧ nsamples_total 3 = some 8
      ∧ ([1, 2, 3, 9, 9, 9, 9, 9] : List Int).length = 8
      ∧ pad_code 3 8 ([1, 2, 3, 9, 9, 9, 9, 9] : List Int) = some [1, 2, 3, 1, 2, 3, 0, 0]
      ∧ ∃ padded : List Int, pad_code 3 8 [1, 2, 3, 9, 9, 9, 9, 9] = some padded
          ∧ padded.length = 8 := by
  obtain ⟨padded, hp, hl, -⟩ :=
    pad_code_in_bounds 3 8 ([1, 2, 3, 9, 9, 9, 9, 9] : List Int) (by decide)
      nsamples_total_three rfl
  exact ⟨by decide, nsamples_total_three, rfl, by decide, padded, hp, hl⟩
